import Mathlib

/-
  Verification of the attribution engine of agent-trace-service.

  This file is a shallow embedding of the Python sources
  (`attribution.py`, `agent_trace_service.py`) into Lean 4:

  * Python `str` is modelled as `String`, except in the token and hash
    modules where `List Char` is used for ease of reasoning (a Python
    `str` is a sequence of unicode scalar values, which is exactly what
    `List Char` is).
  * Python `float` scores are modelled as `Nat`: every score the code
    constructs is a sum of the integer signal weights (at most 110), on
    which IEEE-754 arithmetic and comparisons are exact, so the integer
    model is faithful.  Confidences are the literal values of
    `_tier_to_confidence` and are modelled as `Rat`.
  * JSON documents coming from the database are modelled as typed
    records.  A field that in Python may be absent, `None`, or of the
    wrong type (skipped via `try`/`except` or `isinstance` guards) is
    modelled with `Option`; a guard `if x:` on a string is the
    truthiness test (`None` and `""` are falsy).
  * Database round-trips are modelled by a `Db` record of query
    responses; the engine is parametric in it, mirroring the fact that
    `attribution.py` treats `database_service` as an oracle.
-/

namespace AgentTrace

/-- Truthiness of an optional Python string: `None` and `""` are falsy. -/
def optStrTruthy : Option String → Bool
  | none => false
  | some s => !(s == "")

/-! ## Hash comparison (`attribution._hashes_match`) -/

/-- The literal tag stripped by `str.removeprefix("sha256:")`. -/
def sha256Tag : List Char := "sha256:".toList

/-- `h.removeprefix("sha256:")` on a Python string viewed as chars. -/
def stripShaTag (h : List Char) : List Char :=
  if sha256Tag.isPrefixOf h then h.drop sha256Tag.length else h

/-- `str.lower()` (per-scalar lowercasing, as in CPython for ASCII hashes). -/
def lowerChars (h : List Char) : List Char := h.map Char.toLower

/-- `attribution._hashes_match`: strip the optional `sha256:` tag,
lowercase, and compare on the shorter prefix length; an empty hash never
matches. -/
def hashes_match (hash_a hash_b : List Char) : Bool :=
  let a := lowerChars (stripShaTag hash_a)
  let b := lowerChars (stripShaTag hash_b)
  let min_len := min a.length b.length
  if min_len == 0 then false else decide (a.take min_len = b.take min_len)

/-- `attribution._is_prefix_match`: one SHA is a prefix of the other,
meaningful only from length 7 on. -/
def is_prefix_match (sha_a sha_b : List Char) : Bool :=
  let min_len := min sha_a.length sha_b.length
  if min_len < 7 then false else decide (sha_a.take min_len = sha_b.take min_len)

/-! ## Tier thresholds (`attribution._compute_tier`, `_tier_to_confidence`) -/

/-- The `_STRUCTURAL` set of `attribution._compute_tier`. -/
def structuralSignals : List String :=
  ["commit_link", "content_hash", "revision_parent",
   "revision_ancestor", "range_match", "range_overlap"]

/-- `attribution._compute_tier`: map a score and the fired signals to a
confidence tier, requiring a positive score and a structural signal. -/
def compute_tier (score : Nat) (signals : List String) : Option Nat :=
  if score ≤ 0 then none
  else if !(signals.any (fun s => structuralSignals.contains s)) then none
  else if 95 ≤ score ∧ signals.contains "commit_link" ∧ signals.contains "content_hash" then
    some 1
  else if 80 ≤ score then some 2
  else if 60 ≤ score then some 3
  else if 45 ≤ score then some 4
  else if 25 ≤ score then some 5
  else some 6

/-- `attribution._tier_to_confidence`: the representative confidence of a
tier (`0.0` for `None` and for any key missing from the table). -/
def tier_to_confidence : Option Nat → Rat
  | none => 0
  | some t =>
    if t = 1 then 1
    else if t = 2 then 999/1000
    else if t = 3 then 95/100
    else if t = 4 then 85/100
    else if t = 5 then 7/10
    else if t = 6 then 4/10
    else 0

/-! ## Trace document model

A trace `files[]` entry as read by the engine.  Keys that may be absent
or fail `int()` conversion are `Option`; the engine's `try`/`except`
skips collapse onto the `none` case. -/

/-- A `{start_line, end_line, content_hash}` record inside
`conversations[].ranges[]`. -/
structure RangeRec where
  start_line : Option Int
  end_line : Option Int
  content_hash : Option String
deriving DecidableEq, Repr

/-- A `contributor` object: `{type, model_id}`. -/
structure Contributor where
  type : Option String
  model_id : Option String
deriving DecidableEq, Repr

/-- A `conversations[]` entry. -/
structure Conversation where
  url : Option String
  contributor : Option Contributor
  start_line : Option Int
  end_line : Option Int
  content_hash : Option String
  ranges : List RangeRec
deriving DecidableEq, Repr

/-- A `changes[]` entry. -/
structure Change where
  start_line : Option Int
  end_line : Option Int
  content_hash : Option String
deriving DecidableEq, Repr

/-- A `files[]` entry of a trace document. -/
structure FileEntry where
  path : String
  start_line : Option Int
  end_line : Option Int
  content_hash : Option String
  conversations : List Conversation
  changes : List Change
deriving DecidableEq, Repr

/-! ## Range collection and checks
(`attribution._collect_ranges`, `_check_range`, `_get_best_range`,
`_range_contains`, `_extract_content_hash`, `_find_matching_file`) -/

/-- A pair of keys that is kept only when both are present and
`int()`-convertible (the `try`/`except` in `_collect_ranges`). -/
def optPair : Option Int → Option Int → List (Int × Int)
  | some s, some e => [(s, e)]
  | _, _ => []

/-- `attribution._collect_ranges`: all `(start_line, end_line)` ranges of
a file entry, in source order — file level, then per conversation the
conversation-level pair followed by its `ranges[]`, then `changes[]`. -/
def collect_ranges (fe : FileEntry) : List (Int × Int) :=
  optPair fe.start_line fe.end_line
    ++ fe.conversations.flatMap (fun c =>
        optPair c.start_line c.end_line
          ++ c.ranges.flatMap (fun r => optPair r.start_line r.end_line))
    ++ fe.changes.flatMap (fun ch => optPair ch.start_line ch.end_line)

/-- The loop body of `attribution._check_range`: scan the ranges in
order, returning at the first one that contains the line (`"exact"`) or
whose 5-line widened window contains it (`"overlap"`). -/
def checkRangeList (line_number : Int) : List (Int × Int) → Option String
  | [] => none
  | (s, e) :: rest =>
    if s ≤ line_number ∧ line_number ≤ e then some "exact"
    else if s - 5 ≤ line_number ∧ line_number ≤ e + 5 then some "overlap"
    else checkRangeList line_number rest

/-- `attribution._check_range` (with `OVERLAP_MARGIN = 5`). -/
def check_range (fe : FileEntry) (line_number : Int) : Option String :=
  checkRangeList line_number (collect_ranges fe)

/-- One step of the `_get_best_range` loop.  The accumulator mirrors the
Python locals `best : tuple | None` and `best_distance`, where
`none` for the distance stands for `float("inf")`. -/
def bestRangeStep (line_number : Int)
    (acc : Option (Int × Int) × Option Nat) (r : Int × Int) :
    Option (Int × Int) × Option Nat :=
  let (best, best_distance) := acc
  if r.1 ≤ line_number ∧ line_number ≤ r.2 then
    let span := r.2 - r.1
    match best with
    | none => (some r, some 0)
    | some b => if span < b.2 - b.1 then (some r, some 0) else acc
  else
    let dist := min (line_number - r.1).natAbs (line_number - r.2).natAbs
    match best_distance with
    | none => (some r, some dist)
    | some bd => if dist < bd then (some r, some dist) else acc

/-- `attribution._get_best_range`: the range that "best covers" the line
after a single pass of `bestRangeStep` over the collected ranges. -/
def get_best_range (fe : FileEntry) (line_number : Int) : Option (Int × Int) :=
  ((collect_ranges fe).foldl (bestRangeStep line_number) (none, none)).1

/-- `attribution._range_contains` on an entry's `start_line`/`end_line`.
A missing or unconvertible key raises inside the `try` and yields `True`;
the chained comparison evaluates `int(entry["start_line"]) <= line` first,
so a failing start bound short-circuits to `False` before the end key is
touched. -/
def range_contains (start_line end_line : Option Int) (line_number : Int) : Bool :=
  match start_line with
  | none => true
  | some s =>
    if s ≤ line_number then
      match end_line with
      | none => true
      | some e => line_number ≤ e
    else false

/-- `attribution._extract_content_hash`: search conversation ranges, then
conversation-level hashes, then change-level hashes (first truthy hash
whose range contains the line), falling back to the file-level hash. -/
def extract_content_hash (fe : FileEntry) (line_number : Int) : Option String :=
  match (fe.conversations.flatMap (fun c => c.ranges)).find?
      (fun r => optStrTruthy r.content_hash
        && range_contains r.start_line r.end_line line_number) with
  | some r => r.content_hash
  | none =>
    match fe.conversations.find?
        (fun c => optStrTruthy c.content_hash
          && range_contains c.start_line c.end_line line_number) with
    | some c => c.content_hash
    | none =>
      match fe.changes.find?
          (fun ch => optStrTruthy ch.content_hash
            && range_contains ch.start_line ch.end_line line_number) with
      | some ch => ch.content_hash
      | none => fe.content_hash

/-- The per-entry test of `attribution._find_matching_file`: exact path
equality, or one path is a suffix of the other (absolute vs relative). -/
def pathMatches (trace_path file_path : String) : Bool :=
  trace_path == file_path
    || trace_path.endsWith file_path
    || file_path.endsWith trace_path

/-- `attribution._find_matching_file`: first entry whose path matches. -/
def find_matching_file (files_data : List FileEntry) (file_path : String) :
    Option FileEntry :=
  files_data.find? (fun f => pathMatches f.path file_path)

/-! ## Trace rows and the database oracle -/

/-- The `vcs` object of a trace; `revision` is read with
`vcs.get("revision", "")`, so an absent key is the empty string. -/
structure Vcs where
  revision : String
deriving DecidableEq, Repr

/-- A `trace_timestamp` value: psycopg2 delivers a `datetime` object for
a `TIMESTAMPTZ` column, but the code also tolerates ISO strings. -/
inductive TsVal
  | dt
  | str (v : String)
deriving DecidableEq, Repr

/-- Truthiness of an optional timestamp value (`datetime` objects are
always truthy, strings are falsy when empty). -/
def tsTruthy : Option TsVal → Bool
  | none => false
  | some .dt => true
  | some (.str v) => !(v == "")

/-- A trace row as returned by the attribution queries of
`database_service` (`trace_id, trace_record, vcs, tool, files,
trace_timestamp`).  JSONB columns arrive decoded; a column that is
absent, `NULL`, or not of the expected shape is `none`.  The `tool`
objects are opaque to the engine and modelled by their JSON text, with
`""` standing for an empty (falsy) object. -/
structure Trace where
  trace_id : String
  vcs : Option Vcs
  files : Option (List FileEntry)
  trace_record_files : Option (List FileEntry)
  tool : Option String
  trace_record_tool : Option String
  trace_timestamp : Option TsVal
deriving DecidableEq, Repr

/-- The `files` array a trace effectively exposes.  All three readers
(`_trace_touches_file`, `_score_trace`, `_build_result`) use the
top-level `files` column when it is a non-empty list and otherwise fall
back to `trace_record["files"]` (or `[]`). -/
def resolvedFiles (t : Trace) : List FileEntry :=
  match t.files with
  | some fs => if fs.isEmpty then t.trace_record_files.getD [] else fs
  | none => t.trace_record_files.getD []

/-- `attribution._trace_touches_file`. -/
def trace_touches_file (t : Trace) (file_path : String) : Bool :=
  (find_matching_file (resolvedFiles t) file_path).isSome

/-- A `commit_links` row as used by `attribute_line` (only `trace_ids`
is read there). -/
structure CommitLinkRow where
  trace_ids : List String
deriving DecidableEq, Repr

/-- A stored ledger: an opaque JSON object (the engine never looks
inside it; only its dict truthiness is tested). -/
abbrev Ledger := List (String × String)

/-- Truthiness of a looked-up ledger (`None` and `{}` are falsy). -/
def ledgerTruthy : Option Ledger → Bool
  | none => false
  | some l => !l.isEmpty

/-- The database responses observed by one blame request, with the
project fixed.  `window_traces ts` stands for
`find_traces_in_time_window(project, ts - 24h, ts + 1h)` for a
parseable `ts`, and `iso_parses` for `datetime.fromisoformat`
succeeding; the engine never inspects the parsed value itself, so both
are free oracles here. -/
structure Db where
  get_commit_link : String → Option CommitLinkRow
  find_traces_by_ids : List String → List Trace
  find_traces_by_revision : String → List Trace
  window_traces : String → List Trace
  iso_parses : String → Bool
  get_conversation_content : String → Option String
  get_ledger : String → Option Ledger

/-! ## Candidate selection (`attribution._find_candidate_traces`) -/

/-- The `_add` closure: append a trace unless its id is falsy or already
seen.  The accumulator carries (`seen`, `candidates`). -/
def addTrace (acc : List String × List Trace) (t : Trace) :
    List String × List Trace :=
  if t.trace_id ≠ "" ∧ t.trace_id ∉ acc.1 then
    (acc.1 ++ [t.trace_id], acc.2 ++ [t])
  else acc

/-- `_add` over a query result list. -/
def addTraces (acc : List String × List Trace) (ts : List Trace) :
    List String × List Trace :=
  ts.foldl addTrace acc

/-- `attribution._find_candidate_traces`: union the three search
strategies in order, then keep only traces touching the blamed file. -/
def find_candidate_traces (db : Db) (file_path : String)
    (blame_parent : Option String) (blame_timestamp : Option String)
    (linked_trace_ids : List String) : List Trace :=
  let s0 : List String × List Trace := ([], [])
  let s1 := if linked_trace_ids ≠ [] then
      addTraces s0 (db.find_traces_by_ids linked_trace_ids) else s0
  let s2 := match blame_parent with
    | some p => if p ≠ "" then addTraces s1 (db.find_traces_by_revision p) else s1
    | none => s1
  let s3 := match blame_timestamp with
    | some ts =>
      if ts ≠ "" ∧ s2.2.length < 5 then
        (if db.iso_parses ts then addTraces s2 (db.window_traces ts) else s2)
      else s2
    | none => s2
  s3.2.filter (fun t => trace_touches_file t file_path)

/-! ## Scoring (`attribution._score_trace`) -/

/-- `attribution._timestamp_plausible`: falsy timestamps are implausible,
`datetime` objects pass, strings pass iff `fromisoformat` accepts them. -/
def timestamp_plausible (db : Db) (trace_ts : Option TsVal) : Bool :=
  match trace_ts with
  | none => false
  | some .dt => true
  | some (.str v) => if v = "" then false else db.iso_parses v

/-- The "Commit link match" block of `_score_trace`: `+40` and
`commit_link` when the trace id is in the commit link's `trace_ids`. -/
def scoreCommitLink (has_commit_link : Bool) (trace_id : String)
    (linked_trace_ids : List String) (st : Nat × List String) :
    Nat × List String :=
  if has_commit_link ∧ trace_id ∈ linked_trace_ids then
    (st.1 + 40, st.2 ++ ["commit_link"])
  else st

/-- The "VCS revision match" block of `_score_trace`: `+15` and
`revision_parent` on exact or abbreviated-SHA prefix match. -/
def scoreRevision (trace_revision : String) (blame_parent : Option String)
    (st : Nat × List String) : Nat × List String :=
  match blame_parent with
  | some p =>
    if trace_revision ≠ "" ∧ p ≠ "" then
      (if trace_revision = p then (st.1 + 15, st.2 ++ ["revision_parent"])
       else if is_prefix_match trace_revision.toList p.toList then
         (st.1 + 15, st.2 ++ ["revision_parent"])
       else st)
    else st
  | none => st

/-- The range-check part of the "File & line range match" block: `+10`
and `range_match` on `"exact"`, `+5` and `range_overlap` on
`"overlap"`. -/
def scoreRange (range_result : Option String) (st : Nat × List String) :
    Nat × List String :=
  if range_result = some "exact" then (st.1 + 10, st.2 ++ ["range_match"])
  else if range_result = some "overlap" then (st.1 + 5, st.2 ++ ["range_overlap"])
  else st

/-- The "Content hash match" block of `_score_trace`: `+30` and
`content_hash` when the blame hash is truthy and matches a truthy hash
extracted from the matched file entry. -/
def scoreHash (content_hash file_hash : Option String)
    (st : Nat × List String) : Nat × List String :=
  match content_hash with
  | some ch =>
    if ch ≠ "" then
      match file_hash with
      | some fh =>
        if fh ≠ "" ∧ hashes_match ch.toList fh.toList then
          (st.1 + 30, st.2 ++ ["content_hash"])
        else st
      | none => st
    else st
  | none => st

/-- The "Timestamp match" block of `_score_trace`: `+5` and
`timestamp_match` when the trace timestamp is truthy, a parent is given,
and the timestamp is plausible. -/
def scoreTs (db : Db) (trace_ts : Option TsVal) (blame_parent : Option String)
    (st : Nat × List String) : Nat × List String :=
  if tsTruthy trace_ts ∧ optStrTruthy blame_parent then
    (if timestamp_plausible db trace_ts then
      (st.1 + 5, st.2 ++ ["timestamp_match"])
     else st)
  else st

/-- `attribution._score_trace`: weighted sum of the signals fired by one
candidate trace, together with the signal names in firing order (the
named stage functions are the function's commented blocks, applied in
source order). -/
def score_trace (db : Db) (t : Trace) (file_path : String) (line_number : Int)
    (content_hash : Option String) (blame_parent : Option String)
    (has_commit_link : Bool) (linked_trace_ids : List String) :
    Nat × List String :=
  let st1 := scoreCommitLink has_commit_link t.trace_id linked_trace_ids (0, [])
  let trace_revision := (t.vcs.map Vcs.revision).getD ""
  let st2 := scoreRevision trace_revision blame_parent st1
  let matched_file := find_matching_file (resolvedFiles t) file_path
  let st4 :=
    match matched_file with
    | some mf =>
      scoreHash content_hash (extract_content_hash mf line_number)
        (scoreRange (check_range mf line_number) st2)
    | none => st2
  scoreTs db t.trace_timestamp blame_parent st4

/-! ## Attribution results (`model.AttributionResult`) -/

/-- `model.AttributionResult`.  `matched_range` keeps the
`{start_line, end_line}` pair; `tool` is the opaque tool object. -/
structure AttributionResult where
  tier : Option Nat
  confidence : Rat
  trace_id : Option String
  conversation_url : Option String
  conversation_content : Option String
  contributor_type : Option String
  model_id : Option String
  tool : Option String
  matched_range : Option (Int × Int)
  content_hash_match : Bool
  commit_link_match : Bool
  signals : List String
deriving DecidableEq, Repr

/-- `attribution._no_attribution`. -/
def no_attribution : AttributionResult where
  tier := none
  confidence := 0
  trace_id := none
  conversation_url := none
  conversation_content := none
  contributor_type := none
  model_id := none
  tool := none
  matched_range := none
  content_hash_match := false
  commit_link_match := false
  signals := []

/-! ## Result building (`attribution._build_result`,
`_extract_meta_from_trace`)

The walks thread the Python locals `(model_id, conversation_url,
contributor_type)`; in `_build_result` `contributor_type` starts as the
string `"unknown"`, in `_extract_meta_from_trace` as `None`. -/

/-- Python falsiness of an optional string (negation of truthiness). -/
def optFalsy (o : Option String) : Bool := !optStrTruthy o

/-- The conversation loop over the matched file entry in
`_build_result`: note that the guard `not contributor_type` tests the
string `"unknown"` (truthy), and that the loop breaks as soon as both
`model_id` and `conversation_url` are populated. -/
def walkMatchedConvs :
    List Conversation → Option String × Option String × String →
    Option String × Option String × String
  | [], st => st
  | c :: rest, (m, u, ct) =>
    let contributor := c.contributor.getD ⟨none, none⟩
    let ct := if optStrTruthy contributor.type ∧ ct = "" then
        contributor.type.getD "" else ct
    let m := if optStrTruthy contributor.model_id ∧ optFalsy m then
        contributor.model_id else m
    let u := match c.url with
      | some url => if url ≠ "" ∧ optFalsy u then some url else u
      | none => u
    if optStrTruthy m ∧ optStrTruthy u then (m, u, ct)
    else walkMatchedConvs rest (m, u, ct)

/-- The conversation loop of the all-file-entries fallback in
`_build_result` (no inner break; `contributor_type` is refreshed only
while it is still `"unknown"`). -/
def walkOtherConvs :
    List Conversation → Option String × Option String × String →
    Option String × Option String × String
  | [], st => st
  | c :: rest, (m, u, ct) =>
    let contributor := c.contributor.getD ⟨none, none⟩
    let m := if optStrTruthy contributor.model_id ∧ optFalsy m then
        contributor.model_id else m
    let ct := if optStrTruthy contributor.type ∧ ct = "unknown" then
        contributor.type.getD "" else ct
    let u := match c.url with
      | some url => if url ≠ "" ∧ optFalsy u then some url else u
      | none => u
    walkOtherConvs rest (m, u, ct)

/-- The file-entry fallback loop of `_build_result`, skipping the
matched entry (`fe is matched_file`, i.e. the first path match) and
breaking once both `model_id` and `conversation_url` are populated. -/
def walkOtherFiles (matchedIdx : Option Nat) :
    List (Nat × FileEntry) → Option String × Option String × String →
    Option String × Option String × String
  | [], st => st
  | (i, fe) :: rest, st =>
    if matchedIdx = some i then walkOtherFiles matchedIdx rest st
    else
      let st := walkOtherConvs fe.conversations st
      if optStrTruthy st.1 ∧ optStrTruthy st.2.1 then st
      else walkOtherFiles matchedIdx rest st

/-- The conversation loop of `_extract_meta_from_trace` (all three
slots start at `None`; no inner break). -/
def extractMetaConvs :
    List Conversation → Option String × Option String × Option String →
    Option String × Option String × Option String
  | [], st => st
  | c :: rest, (m, u, ct) =>
    let contributor := c.contributor.getD ⟨none, none⟩
    let m := if optStrTruthy contributor.model_id ∧ optFalsy m then
        contributor.model_id else m
    let ct := if optStrTruthy contributor.type ∧ optFalsy ct then
        contributor.type else ct
    let u := match c.url with
      | some url => if url ≠ "" ∧ optFalsy u then some url else u
      | none => u
    extractMetaConvs rest (m, u, ct)

/-- The file-entry loop of `_extract_meta_from_trace`, returning early
once both `model_id` and `conversation_url` are found. -/
def extractMetaFiles :
    List FileEntry → Option String × Option String × Option String →
    Option String × Option String × Option String
  | [], st => st
  | fe :: rest, st =>
    let st := extractMetaConvs fe.conversations st
    if optStrTruthy st.1 ∧ optStrTruthy st.2.1 then st
    else extractMetaFiles rest st

/-- `attribution._extract_meta_from_trace`: reads only the top-level
`files` column (no `trace_record` fallback). -/
def extract_meta_from_trace (t : Trace) :
    Option String × Option String × Option String :=
  match t.files with
  | none => (none, none, none)
  | some fs => extractMetaFiles fs (none, none, none)

/-- The enrichment loop of `_build_result` over the other candidate
traces (skipping the winning trace by id). -/
def enrichFromCandidates (best_trace_id : String) :
    List Trace → Option String × Option String × String →
    Option String × Option String × String
  | [], st => st
  | t :: rest, (m, u, ct) =>
    if t.trace_id = best_trace_id then
      enrichFromCandidates best_trace_id rest (m, u, ct)
    else
      let meta := extract_meta_from_trace t
      let m := if optFalsy m ∧ optStrTruthy meta.1 then meta.1 else m
      let u := if optFalsy u ∧ optStrTruthy meta.2.1 then meta.2.1 else u
      let ct := if optStrTruthy meta.2.2 ∧ ct = "unknown" then
          meta.2.2.getD "" else ct
      if optStrTruthy m ∧ optStrTruthy u then (m, u, ct)
      else enrichFromCandidates best_trace_id rest (m, u, ct)

/-- `attribution._build_result`. -/
def build_result (db : Db) (tier : Option Nat) (confidence : Rat)
    (t : Trace) (file_path : String) (line_number : Int)
    (signals : List String) (commit_link_match content_hash_match : Bool)
    (other_candidates : List Trace) : AttributionResult :=
  let tool_data := match t.tool with
    | some td => some td
    | none => t.trace_record_tool
  let files_data := resolvedFiles t
  let matched_file := find_matching_file files_data file_path
  let matched_range := matched_file.bind (fun mf => get_best_range mf line_number)
  let st0 : Option String × Option String × String := (none, none, "unknown")
  let st1 := match matched_file with
    | some mf => walkMatchedConvs mf.conversations st0
    | none => st0
  let matchedIdx := files_data.findIdx? (fun f => pathMatches f.path file_path)
  let st2 := if optFalsy st1.1 ∨ optFalsy st1.2.1 then
      walkOtherFiles matchedIdx files_data.enum st1
    else st1
  let st3 := if (optFalsy st2.1 ∨ optFalsy st2.2.1) ∧ other_candidates ≠ [] then
      enrichFromCandidates t.trace_id other_candidates st2
    else st2
  let conversation_content := match st3.2.1 with
    | some u => if u ≠ "" then db.get_conversation_content u else none
    | none => none
  { tier := tier
    confidence := confidence
    trace_id := some t.trace_id
    conversation_url := st3.2.1
    conversation_content := conversation_content
    contributor_type := some st3.2.2
    model_id := st3.1
    tool := tool_data
    matched_range := matched_range
    content_hash_match := content_hash_match
    commit_link_match := commit_link_match
    signals := signals }

/-! ## The attribution engine (`attribution.attribute_line`) -/

/-- The evidence gate of `attribute_line` (lines 183–186): positional
evidence, or commit link plus content hash, or commit link plus parent
revision. -/
def evidenceGate (best_signals : List String) : Bool :=
  (best_signals.contains "range_match" || best_signals.contains "range_overlap")
  || (best_signals.contains "commit_link" && best_signals.contains "content_hash")
  || (best_signals.contains "commit_link" && best_signals.contains "revision_parent")

/-- One step of the best-candidate loop: strictly greater scores win, so
on ties the earlier candidate is kept. -/
def pickBestStep (acc : Nat × Option Trace × List String)
    (x : Trace × Nat × List String) : Nat × Option Trace × List String :=
  if acc.1 < x.2.1 then (x.2.1, some x.1, x.2.2) else acc

/-- `attribution.attribute_line`. -/
def attribute_line (db : Db) (file_path : String) (line_number : Int)
    (blame_commit : String) (blame_parent : Option String)
    (content_hash : Option String) (blame_timestamp : Option String) :
    AttributionResult :=
  let commit_link := db.get_commit_link blame_commit
  let linked_trace_ids := match commit_link with
    | some cl => cl.trace_ids
    | none => []
  let candidates :=
    find_candidate_traces db file_path blame_parent blame_timestamp linked_trace_ids
  if candidates = [] then no_attribution
  else
    let scored := candidates.map (fun t =>
      (t, score_trace db t file_path line_number content_hash blame_parent
            commit_link.isSome linked_trace_ids))
    let best := scored.foldl pickBestStep (0, none, [])
    match best.2.1 with
    | none => no_attribution
    | some best_trace =>
      if best.1 ≤ 0 then no_attribution
      else if !evidenceGate best.2.2 then no_attribution
      else
        match compute_tier best.1 best.2.2 with
        | none => no_attribution
        | some tier =>
          build_result db (some tier) (tier_to_confidence (some tier)) best_trace
            file_path line_number best.2.2
            (best.2.2.contains "commit_link") (best.2.2.contains "content_hash")
            candidates

/-! ## Blame orchestration (`agent_trace_service.blame_file`,
`_merge_attributions`, `_format_attribution`) -/

/-- A blame segment from the client.  `commit_sha` is read with
`segment.get("commit_sha", "")`; the other keys may be absent. -/
structure Segment where
  start_line : Option Int
  end_line : Option Int
  commit_sha : String
  parent_sha : Option String
  content_hash : Option String
  timestamp : Option String
deriving DecidableEq, Repr

/-- A Python exception escaping `blame_file`. -/
inductive PyError
  | typeError (msg : String)
deriving DecidableEq, Repr

/-- The parameter list of `attribution.attribute_line` as declared in
`src/attribution.py` (lines 100–108). -/
def attributeLineParams : List String :=
  ["project_id", "file_path", "line_number", "blame_commit",
   "blame_parent", "content_hash", "blame_timestamp"]

/-- The keyword arguments of the ledger-first call in
`agent_trace_service.blame_file` (lines 387–396). -/
def ledgerCallKwargs : List String :=
  ["project_id", "file_path", "line_number", "blame_commit",
   "blame_parent", "content_hash", "blame_timestamp", "ledger"]

/-- Python call semantics: a keyword call succeeds only when every
keyword names a declared parameter (`attribute_line` has no `**kwargs`);
otherwise the interpreter raises `TypeError`. -/
def kwargsAccepted (params kwargs : List String) : Bool :=
  kwargs.all (fun k => params.contains k)

/-- The representative line of a segment: `(start_line + end_line) // 2`
(Python floor division). -/
def midline (s e : Int) : Int := (s + e).fdiv 2

/-- The attribution of one complete blame segment: the segment's line
bounds together with the engine's result. -/
structure RawResult where
  start_line : Int
  end_line : Int
  result : AttributionResult
deriving DecidableEq, Repr

/-- The per-segment body of the `blame_file` loop: skip incomplete
segments, consult the ledger first — where the source invokes
`attr.attribute_line(..., ledger=ledger)`, a call that Python rejects
with `TypeError` because `attribute_line` declares no such parameter —
and otherwise attribute the segment at its midpoint line. -/
def blameSegment (db : Db) (file_path : String) (seg : Segment) :
    Except PyError (Option RawResult) :=
  match seg.start_line, seg.end_line with
  | some sl, some el =>
    if seg.commit_sha = "" then .ok none
    else if ledgerTruthy (db.get_ledger seg.commit_sha) then
      (if kwargsAccepted attributeLineParams ledgerCallKwargs then
        .ok (some ⟨sl, el,
          attribute_line db file_path (midline sl el) seg.commit_sha
            seg.parent_sha seg.content_hash seg.timestamp⟩)
      else
        .error (.typeError
          "attribute_line() got an unexpected keyword argument: ledger"))
    else
      .ok (some ⟨sl, el,
        attribute_line db file_path (midline sl el) seg.commit_sha
          seg.parent_sha seg.content_hash seg.timestamp⟩)
  | _, _ => .ok none

/-- The segment loop of `blame_file`; an exception raised for one
segment propagates and aborts the request. -/
def blameSegments (db : Db) (file_path : String) :
    List Segment → Except PyError (List RawResult)
  | [] => .ok []
  | seg :: rest =>
    match blameSegment db file_path seg with
    | .error e => .error e
    | .ok none => blameSegments db file_path rest
    | .ok (some r) =>
      match blameSegments db file_path rest with
      | .error e => .error e
      | .ok rs => .ok (r :: rs)

/-- The non-key fields of a formatted attribution entry
(`_format_attribution`); a `none` in an `Option` field models an absent
dict key. -/
structure FRest where
  confidence : Rat
  contributor : Option Contributor
  model_id : Option String
  contributor_type : Option String
  conversation_url : Option String
  conversation_summary : Option String
  tool : Option String
  signals : List String
  commit_link_match : Bool
  content_hash_match : Bool
deriving DecidableEq, Repr

/-- A formatted attribution entry, split into the four fields the merge
pass reads (`start_line`, `end_line`, `trace_id`, `tier`) and the rest;
`_merge_attributions` never inspects `rest`, so it is a type parameter. -/
structure Entry (α : Type) where
  start_line : Int
  end_line : Int
  trace_id : Option String
  tier : Option Nat
  rest : α
deriving DecidableEq, Repr

/-- `MAX_CONVERSATION_SUMMARY_LEN`. -/
def maxConversationSummaryLen : Nat := 200

/-- `agent_trace_service._format_attribution`. -/
def format_attribution (r : RawResult) : Entry FRest :=
  let res := r.result
  let contributor :=
    if optStrTruthy res.contributor_type || optStrTruthy res.model_id then
      some (Contributor.mk
        (if optStrTruthy res.contributor_type then res.contributor_type else none)
        (if optStrTruthy res.model_id then res.model_id else none))
    else none
  let summary := match res.conversation_content with
    | some content =>
      if content ≠ "" then
        some (if content.length > maxConversationSummaryLen then
            content.take maxConversationSummaryLen ++ "..."
          else content.take maxConversationSummaryLen)
      else none
    | none => none
  { start_line := r.start_line
    end_line := r.end_line
    trace_id := res.trace_id
    tier := res.tier
    rest :=
      { confidence := res.confidence
        contributor := contributor
        model_id := if contributor.isSome ∧ optStrTruthy res.model_id then
            res.model_id else none
        contributor_type := if contributor.isSome ∧ optStrTruthy res.contributor_type then
            res.contributor_type else none
        conversation_url := if optStrTruthy res.conversation_url then
            res.conversation_url else none
        conversation_summary := summary
        tool := if optStrTruthy res.tool then res.tool else none
        signals := res.signals
        commit_link_match := res.commit_link_match
        content_hash_match := res.content_hash_match } }

/-- The merge condition of `_merge_attributions`: line-adjacent (or
overlapping) and identical `(trace_id, tier)`; `None` values compare
equal to `None`. -/
def shouldMerge {α : Type} (prev next : Entry α) : Bool :=
  decide (next.start_line ≤ prev.end_line + 1)
    && prev.trace_id == next.trace_id
    && prev.tier == next.tier

/-- The loop of `_merge_attributions`, with `cur` playing the role of
`merged[-1]`: merging overwrites `cur.end_line` with the incoming
entry's `end_line` and keeps every other field of `cur`. -/
def mergeGo {α : Type} : Entry α → List (Entry α) → List (Entry α)
  | cur, [] => [cur]
  | cur, e :: rest =>
    if shouldMerge cur e then mergeGo { cur with end_line := e.end_line } rest
    else cur :: mergeGo e rest

/-- `agent_trace_service._merge_attributions` (on already formatted
entries). -/
def merge_attributions {α : Type} : List (Entry α) → List (Entry α)
  | [] => []
  | e :: rest => mergeGo e rest

/-- `agent_trace_service.blame_file`: attribute every complete segment
at its midpoint (after the ledger-first lookup) and merge adjacent
segments with identical attribution. -/
def blame_file (db : Db) (file_path : String) (blame_data : List Segment) :
    Except PyError (String × List (Entry FRest)) :=
  match blameSegments db file_path blame_data with
  | .error e => .error e
  | .ok raw => .ok (file_path, merge_attributions (raw.map format_attribution))

/-! ## Token machinery (`agent_trace_service.generate_token`,
`decode_token`, `_sign`)

Python `str` values are modelled as `List Char` (sequences of unicode
scalar values) and `bytes` as `List Nat` with every element below 256. -/

/-- UTF-8 encoding of one scalar value (`str.encode()`). -/
def utf8EncodeChar (c : Char) : List Nat :=
  let n := c.toNat
  if n < 128 then [n]
  else if n < 2048 then [192 + n / 64, 128 + n % 64]
  else if n < 65536 then [224 + n / 4096, 128 + n / 64 % 64, 128 + n % 64]
  else [240 + n / 262144, 128 + n / 4096 % 64, 128 + n / 64 % 64, 128 + n % 64]

/-- `str.encode()`: UTF-8 encode a string. -/
def utf8Encode (s : List Char) : List Nat := s.flatMap utf8EncodeChar

/-- The strict UTF-8 decoding loop, indexed by fuel (one unit per
decoded character; the input length always suffices). -/
def utf8DecodeGo : Nat → List Nat → Option (List Char)
  | _, [] => some []
  | 0, _ :: _ => none
  | fuel + 1, b :: rest =>
    if b < 128 then (utf8DecodeGo fuel rest).map (fun s => Char.ofNat b :: s)
    else if b < 192 then none
    else if b < 224 then
      match rest with
      | b1 :: rest2 =>
        if 128 ≤ b1 ∧ b1 < 192 then
          let n := (b - 192) * 64 + (b1 - 128)
          if 128 ≤ n then
            (utf8DecodeGo fuel rest2).map (fun s => Char.ofNat n :: s)
          else none
        else none
      | [] => none
    else if b < 240 then
      match rest with
      | b1 :: b2 :: rest3 =>
        if (128 ≤ b1 ∧ b1 < 192) ∧ (128 ≤ b2 ∧ b2 < 192) then
          let n := (b - 224) * 4096 + (b1 - 128) * 64 + (b2 - 128)
          if 2048 ≤ n ∧ ¬(55296 ≤ n ∧ n < 57344) then
            (utf8DecodeGo fuel rest3).map (fun s => Char.ofNat n :: s)
          else none
        else none
      | _ => none
    else if b < 248 then
      match rest with
      | b1 :: b2 :: b3 :: rest4 =>
        if (128 ≤ b1 ∧ b1 < 192) ∧ (128 ≤ b2 ∧ b2 < 192)
            ∧ (128 ≤ b3 ∧ b3 < 192) then
          let n := (b - 240) * 262144 + (b1 - 128) * 4096
            + (b2 - 128) * 64 + (b3 - 128)
          if 65536 ≤ n ∧ n < 1114112 then
            (utf8DecodeGo fuel rest4).map (fun s => Char.ofNat n :: s)
          else none
        else none
      | _ => none
    else none

/-- `bytes.decode()`: strict UTF-8 decoding; malformed sequences raise
(modelled as `none`).  Lean strings cannot hold lone surrogates, which
strict UTF-8 decoding rejects anyway. -/
def utf8Decode (bs : List Nat) : Option (List Char) :=
  utf8DecodeGo bs.length bs

/-- The URL-safe base64 alphabet of `base64.urlsafe_b64encode`. -/
def b64Alphabet : List Char :=
  "ABCDEFGHIJKLMNOPQRSTUVWXYZabcdefghijklmnopqrstuvwxyz0123456789-_".toList

/-- The alphabet character of a 6-bit value. -/
def b64Char (v : Nat) : Char := b64Alphabet.getD v '?'

/-- `base64.urlsafe_b64encode` on bytes, producing the padded form. -/
def b64urlEncode : List Nat → List Char
  | [] => []
  | [a] => [b64Char (a / 4), b64Char (a % 4 * 16), '=', '=']
  | [a, b] => [b64Char (a / 4), b64Char (a % 4 * 16 + b / 16), b64Char (b % 16 * 4), '=']
  | a :: b :: c :: rest =>
    b64Char (a / 4) :: b64Char (a % 4 * 16 + b / 16) ::
      b64Char (b % 16 * 4 + c / 64) :: b64Char (c % 64) :: b64urlEncode rest

/-- The 6-bit value of an alphabet character. -/
def b64Val (c : Char) : Option Nat := b64Alphabet.findIdx? (fun a => a = c)

/-- `base64.urlsafe_b64decode` on a correctly padded string (malformed
input raises `binascii.Error`, modelled as `none`): the final block may
end in one or two padding characters. -/
def b64urlDecode : List Char → Option (List Nat)
  | [] => some []
  | c0 :: c1 :: c2 :: c3 :: rest =>
    if rest = [] ∧ c2 = '=' ∧ c3 = '=' then do
      let v0 ← b64Val c0
      let v1 ← b64Val c1
      pure [v0 * 4 + v1 / 16]
    else if rest = [] ∧ c3 = '=' then do
      let v0 ← b64Val c0
      let v1 ← b64Val c1
      let v2 ← b64Val c2
      pure [v0 * 4 + v1 / 16, v1 % 16 * 16 + v2 / 4]
    else do
      let v0 ← b64Val c0
      let v1 ← b64Val c1
      let v2 ← b64Val c2
      let v3 ← b64Val c3
      let tail ← b64urlDecode rest
      pure ((v0 * 4 + v1 / 16) :: (v1 % 16 * 16 + v2 / 4)
        :: (v2 % 4 * 64 + v3) :: tail)
  | _ => none

/-- `.rstrip("=")`: drop every trailing padding character. -/
def rstripEq (cs : List Char) : List Char :=
  (cs.reverse.dropWhile (fun c => c = '=')).reverse

/-- `encoded + "=" * (-len(encoded) % 4)`: restore base64 padding. -/
def repadEq (cs : List Char) : List Char :=
  cs ++ List.replicate ((4 - cs.length % 4) % 4) '='

/-- `token.split(".", 1)`: split at the first dot; a dotless token makes
the two-variable unpacking raise (modelled as `none`). -/
def splitFirstDot : List Char → Option (List Char × List Char)
  | [] => none
  | c :: rest =>
    if c = '.' then some ([], rest)
    else (splitFirstDot rest).map (fun p => (c :: p.1, p.2))

/-! ### SHA-256 (`hashlib.sha256`) and HMAC (`hmac.new(...)`) -/

/-- Truncation to a 32-bit word. -/
def w32 (n : Nat) : Nat := n % 4294967296

/-- 32-bit right rotation. -/
def rotr32 (x n : Nat) : Nat := w32 (x / 2 ^ n + x % 2 ^ n * 2 ^ (32 - n))

/-- The SHA-256 round constants. -/
def sha256K : List Nat :=
  [1116352408, 1899447441, 3049323471, 3921009573, 961987163,
   1508970993, 2453635748, 2870763221, 3624381080, 310598401,
   607225278, 1426881987, 1925078388, 2162078206, 2614888103,
   3248222580, 3835390401, 4022224774, 264347078, 604807628,
   770255983, 1249150122, 1555081692, 1996064986, 2554220882,
   2821834349, 2952996808, 3210313671, 3336571891, 3584528711,
   113926993, 338241895, 666307205, 773529912, 1294757372,
   1396182291, 1695183700, 1986661051, 2177026350, 2456956037,
   2730485921, 2820302411, 3259730800, 3345764771, 3516065817,
   3600352804, 4094571909, 275423344, 430227734, 506948616,
   659060556, 883997877, 958139571, 1322822218, 1537002063,
   1747873779, 1955562222, 2024104815, 2227730452, 2361852424,
   2428436474, 2756734187, 3204031479, 3329325298]

/-- The SHA-256 initial hash value. -/
def sha256H0 : List Nat :=
  [1779033703, 3144134277, 1013904242, 2773480762,
   1359893119, 2600822924, 528734635, 1541459225]

/-- Big-endian byte expansion of `n` over `k` bytes. -/
def beBytes (k : Nat) (n : Nat) : List Nat :=
  (List.range k).map (fun i => n / 2 ^ (8 * (k - 1 - i)) % 256)

/-- Pack bytes into 32-bit big-endian words. -/
def bytesToWords : List Nat → List Nat
  | a :: b :: c :: d :: rest =>
    (a * 16777216 + b * 65536 + c * 256 + d) :: bytesToWords rest
  | _ => []

/-- Split a word list into 16-word blocks. -/
def chunk16 : List Nat → List (List Nat)
  | [] => []
  | w :: ws => ((w :: ws).take 16) :: chunk16 (ws.drop 15)
termination_by l => l.length
decreasing_by simp; omega

/-- σ₀ of the SHA-256 message schedule. -/
def ssig0 (x : Nat) : Nat := rotr32 x 7 ^^^ rotr32 x 18 ^^^ x / 2 ^ 3

/-- σ₁ of the SHA-256 message schedule. -/
def ssig1 (x : Nat) : Nat := rotr32 x 17 ^^^ rotr32 x 19 ^^^ x / 2 ^ 10

/-- Σ₀ of the SHA-256 compression function. -/
def bsig0 (x : Nat) : Nat := rotr32 x 2 ^^^ rotr32 x 13 ^^^ rotr32 x 22

/-- Σ₁ of the SHA-256 compression function. -/
def bsig1 (x : Nat) : Nat := rotr32 x 6 ^^^ rotr32 x 11 ^^^ rotr32 x 25

/-- The SHA-256 choice function. -/
def sha256Ch (x y z : Nat) : Nat := (x &&& y) ^^^ ((x ^^^ 4294967295) &&& z)

/-- The SHA-256 majority function. -/
def sha256Maj (x y z : Nat) : Nat := (x &&& y) ^^^ (x &&& z) ^^^ (y &&& z)

/-- Extend a message schedule by one word. -/
def scheduleStep (ws : List Nat) : List Nat :=
  let t := ws.length
  ws ++ [w32 (ssig1 (ws.getD (t - 2) 0) + ws.getD (t - 7) 0
    + ssig0 (ws.getD (t - 15) 0) + ws.getD (t - 16) 0)]

/-- The 64-word message schedule of one block. -/
def schedule (block : List Nat) : List Nat := scheduleStep^[48] block

/-- One round of the SHA-256 compression function on the state
`[a, b, c, d, e, f, g, h]`. -/
def compressStep (st : List Nat) (kw : Nat × Nat) : List Nat :=
  match st with
  | [a, b, c, d, e, f, g, h] =>
    let t1 := w32 (h + bsig1 e + sha256Ch e f g + kw.1 + kw.2)
    let t2 := w32 (bsig0 a + sha256Maj a b c)
    [w32 (t1 + t2), a, b, c, w32 (d + t1), e, f, g]
  | _ => st

/-- Process one 16-word block. -/
def processBlock (h : List Nat) (block : List Nat) : List Nat :=
  let st := (sha256K.zip (schedule block)).foldl compressStep h
  (h.zip st).map (fun p => w32 (p.1 + p.2))

/-- `hashlib.sha256(msg).digest()`: the 32-byte SHA-256 digest. -/
def sha256 (msg : List Nat) : List Nat :=
  let l := msg.length
  let padded := msg ++ 128 :: List.replicate ((119 - l % 64) % 64) 0
    ++ beBytes 8 (8 * l)
  ((chunk16 (bytesToWords padded)).foldl processBlock sha256H0).flatMap (beBytes 4)

/-- `hmac.new(key, msg, hashlib.sha256).digest()` (block size 64). -/
def hmacSha256 (key msg : List Nat) : List Nat :=
  let k0 := if key.length > 64 then sha256 key else key
  let kp := k0 ++ List.replicate (64 - k0.length) 0
  sha256 ((kp.map (fun b => b ^^^ 92)) ++ sha256 ((kp.map (fun b => b ^^^ 54)) ++ msg))

/-- The lowercase hex digit of a nibble. -/
def hexDigitChar (n : Nat) : Char := "0123456789abcdef".toList.getD n '?'

/-- `.hexdigest()`: lowercase hex of a byte string. -/
def hexdigest (bs : List Nat) : List Char :=
  bs.flatMap (fun b => [hexDigitChar (b / 16), hexDigitChar (b % 16)])

/-- `agent_trace_service._sign`: the first 16 hex characters of
`HMAC-SHA256(AUTH_SECRET, payload)`. -/
def tokenSign (secret payload : List Char) : List Char :=
  (hexdigest (hmacSha256 (utf8Encode secret) (utf8Encode payload))).take 16

/-! ### JSON serialization (`json.dumps` / `json.loads`)

Only the fragment of JSON exercised by the token payload is modelled:
objects whose values are strings, integers, booleans, `null`, or nested
objects.  `json.dumps` is modelled by the exact output of CPython's
ASCII encoder on the payload dict; `json.loads` by a parser for that
fragment (it rejects lone surrogates, which Lean strings cannot hold). -/

/-- The `{` character (written via its code point). -/
def lbrace : Char := Char.ofNat 123

/-- The `}` character (written via its code point). -/
def rbrace : Char := Char.ofNat 125

/-- The double-quote character. -/
def qmark : Char := Char.ofNat 34

/-- The backslash character. -/
def bslash : Char := Char.ofNat 92

/-- Four lowercase hex digits of a value below 65536. -/
def hex4 (n : Nat) : List Char :=
  [hexDigitChar (n / 4096 % 16), hexDigitChar (n / 256 % 16),
   hexDigitChar (n / 16 % 16), hexDigitChar (n % 16)]

/-- CPython's `py_encode_basestring_ascii` on one character: short
escapes for `\"`, `\\` and the five named controls, `\uXXXX` for every
other character outside printable ASCII, surrogate pairs for astral
characters. -/
def escapeChar (c : Char) : List Char :=
  let n := c.toNat
  if c = bslash then [bslash, bslash]
  else if c = qmark then [bslash, qmark]
  else if n = 8 then [bslash, 'b']
  else if n = 9 then [bslash, 't']
  else if n = 10 then [bslash, 'n']
  else if n = 12 then [bslash, 'f']
  else if n = 13 then [bslash, 'r']
  else if 32 ≤ n ∧ n ≤ 126 then [c]
  else if n < 65536 then bslash :: 'u' :: hex4 n
  else
    (bslash :: 'u' :: hex4 (55296 + (n - 65536) / 1024))
      ++ (bslash :: 'u' :: hex4 (56320 + (n - 65536) % 1024))

/-- Python's decimal representation of a non-negative integer. -/
def natRepr (n : Nat) : List Char :=
  if n = 0 then ['0']
  else ((Nat.digits 10 n).map (fun d => Char.ofNat (48 + d))).reverse

/-- `json.dumps({"user_id": u, "iat": iat})` with CPython's default
separators and `ensure_ascii=True`. -/
def jsonDumpsPayload (u : List Char) (iat : Nat) : List Char :=
  [lbrace, qmark] ++ "user_id".toList ++ [qmark, ':', ' ', qmark]
    ++ u.flatMap escapeChar ++ [qmark, ',', ' ', qmark] ++ "iat".toList
    ++ [qmark, ':', ' '] ++ natRepr iat ++ [rbrace]

/-- A parsed JSON value (the modelled fragment). -/
inductive JValue
  | jstr (s : List Char)
  | jnum (n : Int)
  | jbool (b : Bool)
  | jnull
  | jobj (members : List (List Char × JValue))

/-- Skip JSON whitespace. -/
def skipWs : List Char → List Char
  | c :: rest =>
    if c = ' ' ∨ c = '\t' ∨ c = '\n' ∨ c = '\r' then skipWs rest else c :: rest
  | [] => []

/-- The value of a hex digit (either case). -/
def hexVal (c : Char) : Option Nat :=
  let n := c.toNat
  if 48 ≤ n ∧ n ≤ 57 then some (n - 48)
  else if 97 ≤ n ∧ n ≤ 102 then some (n - 87)
  else if 65 ≤ n ∧ n ≤ 70 then some (n - 55)
  else none

/-- The low-surrogate continuation of the JSON string scanner: after a
high surrogate `code`, expect another `\uXXXX` escape holding a low
surrogate and recombine the pair into one scalar value. -/
def parseJStrLoPair (go : List Char → Option (List Char × List Char))
    (code : Nat) : List Char → Option (List Char × List Char)
  | e1 :: e2 :: j1 :: j2 :: j3 :: j4 :: rest4 =>
    if e1 = bslash ∧ e2 = 'u' then
      match hexVal j1, hexVal j2, hexVal j3, hexVal j4 with
      | some w1, some w2, some w3, some w4 =>
        let code2 := w1 * 4096 + w2 * 256 + w3 * 16 + w4
        if 56320 ≤ code2 ∧ code2 ≤ 57343 then
          (go rest4).map (fun p =>
            (Char.ofNat (65536 + (code - 55296) * 1024 + (code2 - 56320))
              :: p.1, p.2))
        else none
      | _, _, _, _ => none
    else none
  | _ => none

/-- The `\uXXXX` continuation of the JSON string scanner: read four hex
digits; a high surrogate demands a following low surrogate, a lone low
surrogate is rejected (CPython would produce a string no sequence of
scalar values can represent), anything else is the decoded char. -/
def parseJStrU (go : List Char → Option (List Char × List Char)) :
    List Char → Option (List Char × List Char)
  | h1 :: h2 :: h3 :: h4 :: rest3 =>
    match hexVal h1, hexVal h2, hexVal h3, hexVal h4 with
    | some v1, some v2, some v3, some v4 =>
      let code := v1 * 4096 + v2 * 256 + v3 * 16 + v4
      if 55296 ≤ code ∧ code ≤ 56319 then parseJStrLoPair go code rest3
      else if 56320 ≤ code ∧ code ≤ 57343 then none
      else (go rest3).map (fun p => (Char.ofNat code :: p.1, p.2))
    | _, _, _, _ => none
  | _ => none

/-- The escape continuation of the JSON string scanner, positioned just
after a backslash; `go` is the scanner resumed at the current fuel.
Strict mode rejects raw control characters. -/
def parseJStrEscF (go : List Char → Option (List Char × List Char)) :
    List Char → Option (List Char × List Char)
  | [] => none
  | e :: rest2 =>
    if e = qmark then (go rest2).map (fun p => (qmark :: p.1, p.2))
    else if e = bslash then (go rest2).map (fun p => (bslash :: p.1, p.2))
    else if e = '/' then (go rest2).map (fun p => ('/' :: p.1, p.2))
    else if e = 'b' then (go rest2).map (fun p => (Char.ofNat 8 :: p.1, p.2))
    else if e = 'f' then (go rest2).map (fun p => (Char.ofNat 12 :: p.1, p.2))
    else if e = 'n' then (go rest2).map (fun p => (Char.ofNat 10 :: p.1, p.2))
    else if e = 'r' then (go rest2).map (fun p => (Char.ofNat 13 :: p.1, p.2))
    else if e = 't' then (go rest2).map (fun p => (Char.ofNat 9 :: p.1, p.2))
    else if e = 'u' then parseJStrU go rest2
    else none

/-- The JSON string scanner (`py_scanstring`), positioned after the
opening quote; returns the decoded content and the input after the
closing quote. -/
def parseJStrGo : Nat → List Char → Option (List Char × List Char)
  | _, [] => none
  | 0, _ :: _ => none
  | fuel + 1, c :: rest =>
    if c = qmark then some ([], rest)
    else if c = bslash then parseJStrEscF (fun t => parseJStrGo fuel t) rest
    else if c.toNat < 32 then none
    else (parseJStrGo fuel rest).map (fun p => (c :: p.1, p.2))

/-- The JSON string scanner, with the fuel fixed to the input length
(each step consumes at least one character, so this always suffices). -/
def parseJStr (cs : List Char) : Option (List Char × List Char) :=
  parseJStrGo cs.length cs

/-- Accumulate decimal digits (the integer tail of the number scanner). -/
def parseNatGo (acc : Nat) : List Char → Nat × List Char
  | [] => (acc, [])
  | c :: rest =>
    if c.isDigit then parseNatGo (acc * 10 + (c.toNat - 48)) rest
    else (acc, c :: rest)

/-- Scan a non-negative decimal integer (at least one digit). -/
def parseNat : List Char → Option (Nat × List Char)
  | [] => none
  | c :: rest =>
    if c.isDigit then some (parseNatGo (c.toNat - 48) rest) else none

mutual

/-- The JSON value scanner for the modelled fragment (fuel-indexed; the
fuel bounds the object-nesting/member count and is in practice the input
length). -/
def parseJValue : Nat → List Char → Option (JValue × List Char)
  | 0, _ => none
  | fuel + 1, input =>
    match skipWs input with
    | [] => none
    | c :: rest =>
      if c = qmark then (parseJStr rest).map (fun p => (JValue.jstr p.1, p.2))
      else if c = lbrace then
        (parseJMembers fuel true rest).map (fun p => (JValue.jobj p.1, p.2))
      else if c = '-' then
        (parseNat rest).map (fun p => (JValue.jnum (-(p.1 : Int)), p.2))
      else if c.isDigit then
        (parseNat (c :: rest)).map (fun p => (JValue.jnum (p.1 : Int), p.2))
      else if ("true".toList).isPrefixOf (c :: rest) then
        some (JValue.jbool true, (c :: rest).drop 4)
      else if ("false".toList).isPrefixOf (c :: rest) then
        some (JValue.jbool false, (c :: rest).drop 5)
      else if ("null".toList).isPrefixOf (c :: rest) then
        some (JValue.jnull, (c :: rest).drop 4)
      else none

/-- The object-member scanner, positioned after `{` or after a `,`;
`allowEnd` permits an immediate `}` (so trailing commas are rejected). -/
def parseJMembers : Nat → Bool → List Char →
    Option (List (List Char × JValue) × List Char)
  | 0, _, _ => none
  | fuel + 1, allowEnd, input =>
    match skipWs input with
    | [] => none
    | c :: rest =>
      if c = rbrace ∧ allowEnd then some ([], rest)
      else if c = qmark then
        match parseJStr rest with
        | none => none
        | some (k, r1) =>
          match skipWs r1 with
          | [] => none
          | c1 :: r2 =>
            if c1 = ':' then
              match parseJValue fuel r2 with
              | none => none
              | some (v, r3) =>
                match skipWs r3 with
                | [] => none
                | c2 :: r4 =>
                  if c2 = ',' then
                    (parseJMembers fuel false r4).map
                      (fun p => ((k, v) :: p.1, p.2))
                  else if c2 = rbrace then some ([(k, v)], r4)
                  else none
            else none
      else none

end

/-- `json.loads` on the modelled fragment: parse one value and require
only whitespace after it. -/
def jsonLoads (s : List Char) : Option JValue :=
  match parseJValue (s.length + 1) s with
  | some (v, rest) => if skipWs rest = [] then some v else none
  | none => none

/-- `dict.get` on parsed object members (later duplicates win, as in a
Python dict built by the scanner). -/
def objGet (members : List (List Char × JValue)) (key : List Char) :
    Option JValue :=
  (members.reverse.find? (fun m => m.1 = key)).map (fun m => m.2)

/-! ### The token functions themselves -/

/-- The base64url payload part of a token for `user_id` at epoch second
`now` (`int(time.time())` is passed in as `now`). -/
def encPart (user_id : List Char) (now : Nat) : List Char :=
  rstripEq (b64urlEncode (utf8Encode (jsonDumpsPayload user_id now)))

/-- `agent_trace_service.generate_token`. -/
def generate_token (secret user_id : List Char) (now : Nat) : List Char :=
  encPart user_id now ++ '.' :: tokenSign secret (encPart user_id now)

/-- `agent_trace_service.decode_token`: any exception along the way
yields `None`. -/
def decode_token (secret token : List Char) : Option (List Char) :=
  match splitFirstDot token with
  | none => none
  | some (encoded, sig) =>
    if tokenSign secret encoded ≠ sig then none
    else
      match b64urlDecode (repadEq encoded) with
      | none => none
      | some bytes =>
        match utf8Decode bytes with
        | none => none
        | some payload_str =>
          match jsonLoads payload_str with
          | some (.jobj members) =>
            match objGet members ("user_id".toList) with
            | some (.jstr s) => some s
            | _ => none
          | _ => none

/-- Flip bit `b` of the character at index `i` (the claim's "changing
any bit of the signature"). -/
def flipBitAt (cs : List Char) (i b : Nat) : List Char :=
  cs.set i (Char.ofNat ((cs.getD i ' ').toNat ^^^ 2 ^ b))

/-! ## Concrete instances used to evaluate the model -/

/-- A file entry whose ranges appear with the wider (non-containing)
range first: `changes = [(10, 20), (1, 8)]`. -/
def feOverlapFirst : FileEntry where
  path := "src/a.py"
  start_line := none
  end_line := none
  content_hash := none
  conversations := []
  changes := [⟨some 10, some 20, none⟩, ⟨some 1, some 8, none⟩]

/-- A file entry with a narrow far range before a wide containing one:
`changes = [(100, 101), (10, 90)]`. -/
def feSpanBug : FileEntry where
  path := "src/a.py"
  start_line := none
  end_line := none
  content_hash := none
  conversations := []
  changes := [⟨some 100, some 101, none⟩, ⟨some 10, some 90, none⟩]

/-- A database with no stored rows at all. -/
def emptyDb : Db where
  get_commit_link := fun _ => none
  find_traces_by_ids := fun _ => []
  find_traces_by_revision := fun _ => []
  window_traces := fun _ => []
  iso_parses := fun _ => false
  get_conversation_content := fun _ => none
  get_ledger := fun _ => none

/-- A conversation carrying a contributor type, a model id, a url, and
a range with a content hash. -/
def convTyped : Conversation where
  url := some "https://conv/1"
  contributor := some ⟨some "ai", some "model-x"⟩
  start_line := none
  end_line := none
  content_hash := none
  ranges := [⟨some 1, some 100, some "abcd1234"⟩]

/-- The file entry holding `convTyped`. -/
def feTyped : FileEntry where
  path := "src/a.py"
  start_line := none
  end_line := none
  content_hash := none
  conversations := [convTyped]
  changes := []

/-- A trace whose only file entry is `feTyped`. -/
def traceTyped : Trace where
  trace_id := "T1"
  vcs := none
  files := some [feTyped]
  trace_record_files := none
  tool := none
  trace_record_tool := none
  trace_timestamp := none

/-- A database holding `traceTyped`, commit-linked under `"C1"`. -/
def dbTyped : Db :=
  { emptyDb with
    get_commit_link := fun c => if c = "C1" then some ⟨["T1"]⟩ else none
    find_traces_by_ids := fun ids => if ids = ["T1"] then [traceTyped] else [] }

/-- A database whose commit `"C1"` has a stored (non-empty) ledger. -/
def dbLedger : Db :=
  { emptyDb with
    get_ledger := fun c =>
      if c = "C1" then some [("1-10", "T1")] else none }

/-- A complete blame segment on commit `"C1"`. -/
def segLedger : Segment where
  start_line := some 1
  end_line := some 10
  commit_sha := "C1"
  parent_sha := none
  content_hash := none
  timestamp := none

/-- A file entry recording only lines 1–6 (the edge of a longer blame
segment). -/
def feEdge : FileEntry where
  path := "src/a.py"
  start_line := some 1
  end_line := some 6
  content_hash := none
  conversations := []
  changes := []

/-- A trace whose only file entry is `feEdge`. -/
def traceEdge : Trace where
  trace_id := "T10"
  vcs := none
  files := some [feEdge]
  trace_record_files := none
  tool := none
  trace_record_tool := none
  trace_timestamp := none

/-- A database holding `traceEdge`, commit-linked under `"C"`. -/
def dbEdge : Db :=
  { emptyDb with
    get_commit_link := fun c => if c = "C" then some ⟨["T10"]⟩ else none
    find_traces_by_ids := fun ids => if ids = ["T10"] then [traceEdge] else [] }

/-- The blame segment 1–20 on commit `"C"` (midpoint line 10). -/
def segEdge : Segment where
  start_line := some 1
  end_line := some 20
  commit_sha := "C"
  parent_sha := none
  content_hash := none
  timestamp := none

/-- The signal list of a successfully attributed segment (`[]` when the
segment was skipped or the request raised). -/
def segmentSignals (x : Except PyError (Option RawResult)) : List String :=
  match x with
  | .ok (some r) => r.result.signals
  | _ => []

/-! # Theorems -/

/-- Scanning the range list returns at the first range whose 5-line
widened window contains the line, classifying it as `"exact"` when the
range itself contains the line and `"overlap"` otherwise. -/
theorem checkRangeList_eq_find (line : Int) (rs : List (Int × Int)) :
    checkRangeList line rs =
      match rs.find? (fun r => decide (r.1 - 5 ≤ line) && decide (line ≤ r.2 + 5)) with
      | none => none
      | some r => if r.1 ≤ line ∧ line ≤ r.2 then some "exact" else some "overlap" := by
  induction rs with
  | nil => rfl
  | cons r rest ih =>
    by_cases hin : r.1 ≤ line ∧ line ≤ r.2
    · have hwide : (decide (r.1 - 5 ≤ line) && decide (line ≤ r.2 + 5)) = true := by
        simp only [Bool.and_eq_true, decide_eq_true_eq]; omega
      rw [checkRangeList, if_pos hin]
      simp only [List.find?, hwide]
      rw [if_pos hin]
    · by_cases hw : r.1 - 5 ≤ line ∧ line ≤ r.2 + 5
      · have hwide : (decide (r.1 - 5 ≤ line) && decide (line ≤ r.2 + 5)) = true := by
          simp only [Bool.and_eq_true, decide_eq_true_eq]; omega
        rw [checkRangeList, if_neg hin, if_pos hw]
        simp only [List.find?, hwide]
        rw [if_neg hin]
      · have hwide : (decide (r.1 - 5 ≤ line) && decide (line ≤ r.2 + 5)) = false := by
          simp only [Bool.and_eq_false_iff, decide_eq_false_iff_not]; omega
        rw [checkRangeList, if_neg hin, if_neg hw]
        simp only [List.find?, hwide]
        exact ih

/-- C4 (counterexample): on the file entry with ranges `[(10, 20), (1, 8)]`
the blamed line 6 lies inside the recorded range `(1, 8)`, yet
`_check_range` reports `"overlap"` (so `range_match` does not fire and
`range_overlap` fires while the line is inside a recorded range) — the
claimed order-independence is false. -/
theorem C4_order_counterexample :
    check_range feOverlapFirst 6 = some "overlap"
      ∧ (1, 8) ∈ collect_ranges feOverlapFirst
      ∧ (1 : Int) ≤ 6 ∧ (6 : Int) ≤ 8 := by
  refine ⟨by rfl, by decide, by decide, by decide⟩

/-- C4 (amended): `_check_range` scans the collected ranges in order and
answers at the first range whose 5-line widened window contains the
line — `"exact"` when that range itself contains the line, `"overlap"`
otherwise; so the outcome depends on range order, and `range_match`
fires iff the first widened hit is a containing range. -/
theorem C4_first_widened_range (fe : FileEntry) (line : Int) :
    check_range fe line =
      match (collect_ranges fe).find?
          (fun r => decide (r.1 - 5 ≤ line) && decide (line ≤ r.2 + 5)) with
      | none => none
      | some r => if r.1 ≤ line ∧ line ≤ r.2 then some "exact" else some "overlap" :=
  checkRangeList_eq_find line (collect_ranges fe)

/-- C5 (failing input): on ranges `[(100, 101), (10, 90)]` and line 50,
`_get_best_range` returns `(100, 101)` although `(10, 90)` contains the
line — contradicting both the spec and the function's own comment
("prefer exact containing range, then nearest"), because a containing
range only replaces the running best when its span beats the span of a
previously stored non-containing range. -/
theorem C5_nearest_beats_containing :
    get_best_range feSpanBug 50 = some (100, 101)
      ∧ (10, 90) ∈ collect_ranges feSpanBug
      ∧ ((10 : Int) ≤ 50 ∧ (50 : Int) ≤ 90)
      ∧ ¬((100 : Int) ≤ 50 ∧ (50 : Int) ≤ 101) := by
  refine ⟨by rfl, by decide, by decide, by decide⟩

/-- C3: for a positive score and a signal list containing a structural
signal, `_compute_tier` follows the claimed threshold table (tier 1
additionally requiring both `commit_link` and `content_hash`), the
confidence table is 1, 0.999, 0.95, 0.85, 0.70, 0.40 with 0 for an
undefined tier, and tier 1 implies both signals fired with confidence 1. -/
theorem C3_tier_table :
    (∀ (score : Nat) (signals : List String),
      (∃ s ∈ signals, s ∈ ["commit_link", "content_hash", "revision_parent",
          "range_match", "range_overlap"]) →
      0 < score →
      compute_tier score signals =
        some (if 95 ≤ score ∧ signals.contains "commit_link" ∧ signals.contains "content_hash"
          then 1 else if 80 ≤ score then 2 else if 60 ≤ score then 3
          else if 45 ≤ score then 4 else if 25 ≤ score then 5 else 6))
    ∧ (tier_to_confidence (some 1) = 1 ∧ tier_to_confidence (some 2) = 999/1000
        ∧ tier_to_confidence (some 3) = 95/100 ∧ tier_to_confidence (some 4) = 85/100
        ∧ tier_to_confidence (some 5) = 7/10 ∧ tier_to_confidence (some 6) = 4/10
        ∧ tier_to_confidence none = 0)
    ∧ (∀ (score : Nat) (signals : List String),
        compute_tier score signals = some 1 →
        signals.contains "commit_link" = true ∧ signals.contains "content_hash" = true
          ∧ tier_to_confidence (compute_tier score signals) = 1) := by
  refine ⟨?_, by norm_num [tier_to_confidence], ?_⟩
  · rintro score signals ⟨s, hs, hmem⟩ hpos
    have hstruct : ∃ x ∈ signals, x ∈ structuralSignals := by
      refine ⟨s, hs, ?_⟩
      fin_cases hmem <;> simp [structuralSignals]
    rw [compute_tier, if_neg (not_le.mpr hpos), if_neg (by simpa using hstruct)]
    split_ifs <;> rfl
  · intro score signals h
    have h' := h
    rw [compute_tier] at h'
    split_ifs at h' with h1 h2 h3 h4 h5 h6 h7 <;> simp_all [tier_to_confidence]

/-- C8 (counterexample): `"sha256:ab"` matches `"ab"`, but truncating the
first argument to length 1 (which destroys the `sha256:` tag) makes the
match fail — truncation stability does not hold for tagged arguments. -/
theorem C8_truncation_counterexample :
    hashes_match "sha256:ab".toList "ab".toList = true
      ∧ 1 ≤ ("sha256:ab".toList.take 1).length
      ∧ hashes_match ("sha256:ab".toList.take 1) "ab".toList = false := by
  refine ⟨by rfl, by decide, by rfl⟩

/-- C3 (witness): the tier table at score 95 with both tier-1 signals. -/
theorem C3_tier_table_witness :
    compute_tier 95 ["commit_link", "content_hash"] =
      some (if 95 ≤ (95 : Nat) ∧ (["commit_link", "content_hash"] : List String).contains "commit_link"
            ∧ (["commit_link", "content_hash"] : List String).contains "content_hash"
          then 1 else if 80 ≤ (95 : Nat) then 2 else if 60 ≤ (95 : Nat) then 3
          else if 45 ≤ (95 : Nat) then 4 else if 25 ≤ (95 : Nat) then 5 else 6)
    ∧ ((["commit_link", "content_hash"] : List String).contains "commit_link" = true
        ∧ (["commit_link", "content_hash"] : List String).contains "content_hash" = true
        ∧ tier_to_confidence (compute_tier 95 ["commit_link", "content_hash"]) = 1) :=
  ⟨C3_tier_table.1 95 ["commit_link", "content_hash"]
      ⟨"commit_link", by decide, by decide⟩ (by norm_num),
   C3_tier_table.2.2 95 ["commit_link", "content_hash"] (by decide)⟩

/-- Unfolding characterization of a positive hash match. -/
theorem hashes_match_eq_true_iff (a b : List Char) :
    hashes_match a b = true ↔
      (min (lowerChars (stripShaTag a)).length (lowerChars (stripShaTag b)).length ≠ 0
        ∧ (lowerChars (stripShaTag a)).take
            (min (lowerChars (stripShaTag a)).length (lowerChars (stripShaTag b)).length)
          = (lowerChars (stripShaTag b)).take
            (min (lowerChars (stripShaTag a)).length (lowerChars (stripShaTag b)).length)) := by
  simp only [hashes_match]
  split_ifs with h
  · simp only [beq_iff_eq] at h
    simp [h]
  · simp only [beq_iff_eq] at h
    simp [h]

/-- Hash matching is symmetric. -/
theorem hashes_match_symm (a b : List Char) :
    hashes_match a b = hashes_match b a := by
  rw [Bool.eq_iff_iff, hashes_match_eq_true_iff, hashes_match_eq_true_iff,
    Nat.min_comm]
  constructor
  · rintro ⟨h0, he⟩
    exact ⟨h0, he.symm⟩
  · rintro ⟨h0, he⟩
    exact ⟨h0, he.symm⟩

/-- Truncating the left argument of a positive match (when it carries no
`sha256:` tag) to any length ≥ 1 preserves the match. -/
theorem hashes_match_take_left (a b : List Char) (k : Nat) (hk : 1 ≤ k)
    (hpre : sha256Tag.isPrefixOf a = false)
    (h : hashes_match a b = true) : hashes_match (a.take k) b = true := by
  have hstrip : stripShaTag a = a := by
    rw [stripShaTag, if_neg]
    simp [hpre]
  have hstrip' : stripShaTag (a.take k) = a.take k := by
    rw [stripShaTag, if_neg]
    intro hcon
    have h1 : sha256Tag <+: a.take k := by
      simpa [List.isPrefixOf_iff_prefix] using hcon
    have h2 : a.take k <+: a := List.take_prefix k a
    have h3 := h1.trans h2
    rw [← List.isPrefixOf_iff_prefix] at h3
    simp [hpre] at h3
  rw [hashes_match_eq_true_iff, hstrip] at h
  rw [hashes_match_eq_true_iff, hstrip']
  obtain ⟨hm0, heq⟩ := h
  have hlc : lowerChars (a.take k) = (lowerChars a).take k := by
    simp [lowerChars, List.map_take]
  rw [hlc]
  set la := lowerChars a with hla
  set lb := lowerChars (stripShaTag b) with hlb
  have hlen : (la.take k).length = min k la.length := List.length_take k la
  have hla1 : 1 ≤ la.length := by omega
  have hlb1 : 1 ≤ lb.length := by omega
  have hm'le : min (la.take k).length lb.length ≤ min la.length lb.length := by
    rw [hlen]; omega
  have hm'k : min (la.take k).length lb.length ≤ k := by
    rw [hlen]; omega
  refine ⟨by rw [hlen]; omega, ?_⟩
  have h1 : (la.take k).take (min (la.take k).length lb.length)
      = la.take (min (la.take k).length lb.length) := by
    rw [List.take_take, Nat.min_eq_left hm'k]
  have h2 := congrArg (List.take (min (la.take k).length lb.length)) heq
  rw [List.take_take, List.take_take, Nat.min_eq_left hm'le] at h2
  rw [h1, h2]

/-- C8 (amended): a hash that is empty after stripping never matches;
matching is symmetric; and truncating either matching argument to any
length ≥ 1 preserves the match provided the truncated argument does not
itself carry the `sha256:` tag (truncation through the tag can destroy a
match, as the counterexample shows). -/
theorem C8_hash_relation :
    (∀ a b : List Char, stripShaTag a = [] ∨ stripShaTag b = [] →
      hashes_match a b = false)
    ∧ (∀ a b : List Char, hashes_match a b = hashes_match b a)
    ∧ (∀ (a b : List Char) (k : Nat), 1 ≤ k → sha256Tag.isPrefixOf a = false →
        hashes_match a b = true → hashes_match (a.take k) b = true)
    ∧ (∀ (a b : List Char) (k : Nat), 1 ≤ k → sha256Tag.isPrefixOf b = false →
        hashes_match a b = true → hashes_match a (b.take k) = true) := by
  refine ⟨?_, hashes_match_symm, hashes_match_take_left, ?_⟩
  · intro a b h
    rcases h with h | h <;> simp [hashes_match, h, lowerChars]
  · intro a b k hk hpre h
    rw [hashes_match_symm]
    exact hashes_match_take_left b a k hk hpre (by rw [hashes_match_symm]; exact h)

/-- C8 (witness): truncating the untagged argument `"abcd"` of the match
with `"ab"` to length 3 keeps the match, on either side. -/
theorem C8_hash_relation_witness :
    hashes_match ("abcd".toList.take 3) "ab".toList = true
      ∧ hashes_match "ab".toList ("abcd".toList.take 3) = true :=
  ⟨C8_hash_relation.2.2.1 "abcd".toList "ab".toList 3 (by decide) (by rfl) (by rfl),
   C8_hash_relation.2.2.2 "ab".toList "abcd".toList 3 (by decide) (by rfl) (by rfl)⟩

/-- The head of `mergeGo cur l` is `cur` with a possibly different end
line (merging only ever rewrites `end_line`). -/
theorem mergeGo_head {α : Type} (l : List (Entry α)) (cur : Entry α) :
    ∃ el rest, mergeGo cur l = { cur with end_line := el } :: rest := by
  induction l generalizing cur with
  | nil => exact ⟨cur.end_line, [], rfl⟩
  | cons e rest ih =>
    rw [mergeGo]
    split_ifs with h
    · obtain ⟨el, tail, heq⟩ := ih { cur with end_line := e.end_line }
      exact ⟨el, tail, heq⟩
    · exact ⟨cur.end_line, mergeGo e rest, rfl⟩

/-- After merging, adjacent survivors never satisfy the merge condition. -/
theorem mergeGo_chain {α : Type} (l : List (Entry α)) (cur : Entry α) :
    List.Chain'
      (fun a b => ¬(b.start_line ≤ a.end_line + 1 ∧ a.trace_id = b.trace_id
        ∧ a.tier = b.tier))
      (mergeGo cur l) := by
  induction l generalizing cur with
  | nil => simp [mergeGo]
  | cons e rest ih =>
    rw [mergeGo]
    split_ifs with h
    · exact ih _
    · obtain ⟨el, tail, heq⟩ := mergeGo_head rest e
      rw [heq]
      refine List.Chain'.cons ?_ ?_
      · intro hcon
        apply h
        rw [shouldMerge]
        simp only [Bool.and_eq_true, decide_eq_true_eq, beq_iff_eq]
        obtain ⟨h1, h2, h3⟩ := hcon
        exact ⟨⟨h1, h2⟩, h3⟩
      · rw [← heq]
        exact ih _

/-- C7: a merge step fires exactly when the incoming entry is
line-adjacent (or overlapping) with the running entry and agrees on
`trace_id` and `tier` (nulls comparing equal); merging overwrites only
`end_line` with the incoming entry's value; and in the merged output no
two adjacent entries are line-adjacent with equal `(trace_id, tier)`. -/
theorem C7_merge_attributions :
    (∀ (α : Type) (cur e : Entry α) (rest : List (Entry α)),
      mergeGo cur (e :: rest) =
        if e.start_line ≤ cur.end_line + 1 ∧ cur.trace_id = e.trace_id
            ∧ cur.tier = e.tier
        then mergeGo { cur with end_line := e.end_line } rest
        else cur :: mergeGo e rest)
    ∧ (∀ (α : Type) (entries : List (Entry α)),
      List.Chain'
        (fun a b => ¬(b.start_line ≤ a.end_line + 1 ∧ a.trace_id = b.trace_id
          ∧ a.tier = b.tier))
        (merge_attributions entries)) := by
  constructor
  · intro α cur e rest
    rw [mergeGo]
    by_cases h : e.start_line ≤ cur.end_line + 1 ∧ cur.trace_id = e.trace_id
        ∧ cur.tier = e.tier
    · rw [if_pos h, if_pos]
      rw [shouldMerge]
      simp only [Bool.and_eq_true, decide_eq_true_eq, beq_iff_eq]
      exact ⟨⟨h.1, h.2.1⟩, h.2.2⟩
    · rw [if_neg h, if_neg]
      rw [shouldMerge]
      simp only [Bool.and_eq_true, decide_eq_true_eq, beq_iff_eq]
      intro hcon
      exact h ⟨hcon.1.1, hcon.1.2, hcon.2⟩
  · intro α entries
    cases entries with
    | nil => simp [merge_attributions]
    | cons e rest => exact mergeGo_chain rest e

/-- The evidence gate only passes signal lists containing a structural
signal from the claimed five. -/
theorem evidenceGate_structural (sig : List String) (h : evidenceGate sig = true) :
    ∃ s ∈ sig, s ∈ ["commit_link", "content_hash", "revision_parent",
      "range_match", "range_overlap"] := by
  simp only [evidenceGate, Bool.or_eq_true, Bool.and_eq_true, List.contains,
    List.elem_iff] at h
  obtain ((h | h) | h) | h := h
  · exact ⟨"range_match", h, by decide⟩
  · exact ⟨"range_overlap", h, by decide⟩
  · exact ⟨"commit_link", h.1, by decide⟩
  · exact ⟨"commit_link", h.1, by decide⟩

/-- Projections of a built result: `tier`, `confidence` and `signals`
are passed through unchanged. -/
theorem build_result_fields (db : Db) (tier : Option Nat) (conf : Rat)
    (t : Trace) (fp : String) (ln : Int) (sig : List String)
    (clm chm : Bool) (oc : List Trace) :
    (build_result db tier conf t fp ln sig clm chm oc).tier = tier
      ∧ (build_result db tier conf t fp ln sig clm chm oc).confidence = conf
      ∧ (build_result db tier conf t fp ln sig clm chm oc).signals = sig :=
  ⟨rfl, rfl, rfl⟩

/-- `attribute_line` either returns the blank result or a built result
whose signal list passed the evidence gate and whose tier is defined. -/
theorem attribute_line_no_or_build (db : Db) (fp : String) (ln : Int)
    (bc : String) (bp ch ts : Option String) :
    attribute_line db fp ln bc bp ch ts = no_attribution
    ∨ ∃ (tier : Nat) (sig : List String) (bt : Trace) (cands : List Trace),
        evidenceGate sig = true
        ∧ attribute_line db fp ln bc bp ch ts =
            build_result db (some tier) (tier_to_confidence (some tier)) bt fp ln sig
              (sig.contains "commit_link") (sig.contains "content_hash") cands := by
  simp only [attribute_line]
  split
  · exact Or.inl rfl
  · split
    · exact Or.inl rfl
    · rename_i best_trace heq
      split_ifs with h1 h2
      · exact Or.inl rfl
      · exact Or.inl rfl
      · split
        · exact Or.inl rfl
        · rename_i tier htier
          refine Or.inr ⟨tier, _, best_trace, _, ?_, rfl⟩
          simpa using h2

/-- C2: for every result of `attribute_line`, these are equivalent: the
tier is defined; the returned signal list contains a structural signal
(`commit_link`, `content_hash`, `revision_parent`, `range_match`,
`range_overlap`); the evidence gate passes on that list.  When the gate
fails on the returned list, the result is blank: tier `None`,
confidence 0, empty signals. -/
theorem C2_gate_equivalence (db : Db) (fp : String) (ln : Int) (bc : String)
    (bp ch ts : Option String) :
    ((attribute_line db fp ln bc bp ch ts).tier ≠ none ↔
      ∃ s ∈ (attribute_line db fp ln bc bp ch ts).signals,
        s ∈ ["commit_link", "content_hash", "revision_parent",
          "range_match", "range_overlap"])
    ∧ ((attribute_line db fp ln bc bp ch ts).tier ≠ none ↔
        evidenceGate (attribute_line db fp ln bc bp ch ts).signals = true)
    ∧ (evidenceGate (attribute_line db fp ln bc bp ch ts).signals = false →
        (attribute_line db fp ln bc bp ch ts).tier = none
          ∧ (attribute_line db fp ln bc bp ch ts).confidence = 0
          ∧ (attribute_line db fp ln bc bp ch ts).signals = []) := by
  rcases attribute_line_no_or_build db fp ln bc bp ch ts with
    h | ⟨tier, sig, bt, cands, hg, h⟩
  · rw [h]
    refine ⟨iff_of_false (by simp [no_attribution]) ?_,
      iff_of_false (by simp [no_attribution]) ?_, fun _ => ⟨rfl, rfl, rfl⟩⟩
    · simp [no_attribution]
    · simp only [no_attribution]
      decide
  · rw [h]
    obtain ⟨ht, hc, hs⟩ := build_result_fields db (some tier)
      (tier_to_confidence (some tier)) bt fp ln sig
      (sig.contains "commit_link") (sig.contains "content_hash") cands
    rw [ht, hs]
    refine ⟨iff_of_true (by simp) (evidenceGate_structural sig hg),
      iff_of_true (by simp) hg, fun hf => ?_⟩
    rw [hg] at hf
    exact absurd hf (by simp)

/-- C2 (witness): the equivalence at a concrete call on the empty
database. -/
theorem C2_gate_equivalence_witness :
    ((attribute_line emptyDb "src/a.py" 1 "C" none none none).tier ≠ none ↔
      ∃ s ∈ (attribute_line emptyDb "src/a.py" 1 "C" none none none).signals,
        s ∈ ["commit_link", "content_hash", "revision_parent",
          "range_match", "range_overlap"])
    ∧ ((attribute_line emptyDb "src/a.py" 1 "C" none none none).tier ≠ none ↔
        evidenceGate (attribute_line emptyDb "src/a.py" 1 "C" none none none).signals = true)
    ∧ (evidenceGate (attribute_line emptyDb "src/a.py" 1 "C" none none none).signals = false →
        (attribute_line emptyDb "src/a.py" 1 "C" none none none).tier = none
          ∧ (attribute_line emptyDb "src/a.py" 1 "C" none none none).confidence = 0
          ∧ (attribute_line emptyDb "src/a.py" 1 "C" none none none).signals = []) :=
  C2_gate_equivalence emptyDb "src/a.py" 1 "C" none none none

/-- C6 (failing input): the winning trace's matched file entry carries
`contributor.type = "ai"`, yet the attribution's `contributor_type` is
`"unknown"` — the guard `not contributor_type` in the matched-file walk
tests the truthy string `"unknown"` and can never fire, so the matched
entry never supplies the type (here the fallback walks are skipped
because `model_id` and `conversation_url` are already populated). -/
theorem C6_matched_type_ignored :
    (attribute_line dbTyped "src/a.py" 50 "C1" none (some "abcd1234") none).contributor_type
        = some "unknown"
      ∧ (attribute_line dbTyped "src/a.py" 50 "C1" none (some "abcd1234") none).trace_id
        = some "T1"
      ∧ (attribute_line dbTyped "src/a.py" 50 "C1" none (some "abcd1234") none).model_id
        = some "model-x"
      ∧ find_matching_file (resolvedFiles traceTyped) "src/a.py" = some feTyped
      ∧ convTyped ∈ feTyped.conversations
      ∧ convTyped.contributor = some ⟨some "ai", some "model-x"⟩ := by
  refine ⟨by rfl, by rfl, by rfl, by rfl, by decide, by rfl⟩

/-- C1 (failing input): for a blame segment whose commit has a stored
non-empty ledger, `blame_file` raises `TypeError` instead of returning a
tier-1 attribution: the ledger-first path calls
`attr.attribute_line(..., ledger=ledger)`, but `attribute_line` declares
no `ledger` parameter. -/
theorem C1_ledger_call_raises :
    blame_file dbLedger "src/a.py" [segLedger] =
      .error (.typeError "attribute_line() got an unexpected keyword argument: ledger")
      ∧ ledgerTruthy (dbLedger.get_ledger segLedger.commit_sha) = true
      ∧ ("ledger" ∈ ledgerCallKwargs ∧ "ledger" ∉ attributeLineParams)
      ∧ kwargsAccepted attributeLineParams ledgerCallKwargs = false := by
  refine ⟨by rfl, by rfl, by decide, by rfl⟩

/-- C10 (counterexample): blame segment 1–20 (midpoint 10) against a
trace whose only recorded range is (1, 6): the evidence covers only the
segment's edge and not its midpoint, yet the attribution carries the
`range_overlap` signal (the widened window of (1, 6) reaches line 10) —
so edge-only evidence can contribute a range signal. -/
theorem C10_edge_overlap_counterexample :
    "range_overlap" ∈ segmentSignals (blameSegment dbEdge "src/a.py" segEdge)
      ∧ segEdge.start_line = some 1 ∧ segEdge.end_line = some 20
      ∧ midline 1 20 = 10
      ∧ collect_ranges feEdge = [(1, 6)]
      ∧ ¬((1 : Int) ≤ midline 1 20 ∧ midline 1 20 ≤ 6) := by
  refine ⟨by decide, by rfl, by rfl, by rfl, by rfl, by decide⟩

/-- An `"exact"` range answer exhibits a collected range containing the
line. -/
theorem check_range_exact_mem (fe : FileEntry) (ln : Int)
    (h : check_range fe ln = some "exact") :
    ∃ r ∈ collect_ranges fe, r.1 ≤ ln ∧ ln ≤ r.2 := by
  rw [check_range, checkRangeList_eq_find] at h
  rcases hf : (collect_ranges fe).find?
      (fun r => decide (r.1 - 5 ≤ ln) && decide (ln ≤ r.2 + 5)) with _ | r
  · rw [hf] at h
    simp at h
  · rw [hf] at h
    dsimp only at h
    split_ifs at h with hc
    · exact ⟨r, List.mem_of_find?_eq_some hf, hc⟩
    · exact absurd h (by decide)

/-- An `"overlap"` range answer exhibits a collected range whose 5-line
widened window contains the line. -/
theorem check_range_overlap_mem (fe : FileEntry) (ln : Int)
    (h : check_range fe ln = some "overlap") :
    ∃ r ∈ collect_ranges fe, r.1 - 5 ≤ ln ∧ ln ≤ r.2 + 5 := by
  rw [check_range, checkRangeList_eq_find] at h
  rcases hf : (collect_ranges fe).find?
      (fun r => decide (r.1 - 5 ≤ ln) && decide (ln ≤ r.2 + 5)) with _ | r
  · rw [hf] at h
    simp at h
  · have hp := List.find?_some hf
    simp only [Bool.and_eq_true, decide_eq_true_eq] at hp
    exact ⟨r, List.mem_of_find?_eq_some hf, hp⟩

/-- Signals contributed by the timestamp stage. -/
theorem mem_scoreTs {s : String} {db : Db} {ts : Option TsVal}
    {bp : Option String} {st : Nat × List String}
    (h : s ∈ (scoreTs db ts bp st).2) : s ∈ st.2 ∨ s = "timestamp_match" := by
  unfold scoreTs at h
  split_ifs at h <;> simp_all

/-- Signals contributed by the content-hash stage. -/
theorem mem_scoreHash {s : String} {ch fh : Option String}
    {st : Nat × List String} (h : s ∈ (scoreHash ch fh st).2) :
    s ∈ st.2 ∨ s = "content_hash" := by
  unfold scoreHash at h
  rcases ch with _ | c
  · exact Or.inl h
  · rcases fh with _ | f <;> dsimp only at h <;> split_ifs at h <;> simp_all

/-- Signals contributed by the revision stage. -/
theorem mem_scoreRevision {s : String} {rev : String} {bp : Option String}
    {st : Nat × List String} (h : s ∈ (scoreRevision rev bp st).2) :
    s ∈ st.2 ∨ s = "revision_parent" := by
  unfold scoreRevision at h
  rcases bp with _ | p
  · exact Or.inl h
  · dsimp only at h
    split_ifs at h <;> simp_all

/-- Signals contributed by the commit-link stage. -/
theorem mem_scoreCommitLink {s : String} {hcl : Bool} {tid : String}
    {lids : List String} {st : Nat × List String}
    (h : s ∈ (scoreCommitLink hcl tid lids st).2) :
    s ∈ st.2 ∨ s = "commit_link" := by
  unfold scoreCommitLink at h
  split_ifs at h <;> simp_all

/-- Signals present before the range stage runs. -/
theorem mem_scoreBase {s : String} {hcl : Bool} {tid rev : String}
    {lids : List String} {bp : Option String}
    (h : s ∈ (scoreRevision rev bp (scoreCommitLink hcl tid lids (0, []))).2) :
    s = "commit_link" ∨ s = "revision_parent" := by
  rcases mem_scoreRevision h with h | h
  · rcases mem_scoreCommitLink h with h | h
    · simp at h
    · exact Or.inl h
  · exact Or.inr h

/-- Signals contributed by the range stage. -/
theorem mem_scoreRange {s : String} {rr : Option String}
    {st : Nat × List String} (h : s ∈ (scoreRange rr st).2) :
    s ∈ st.2 ∨ (s = "range_match" ∧ rr = some "exact")
      ∨ (s = "range_overlap" ∧ rr = some "overlap") := by
  unfold scoreRange at h
  split_ifs at h <;> simp_all

/-- `range_match` fires only when the matched file entry's range check
at the scored line answers `"exact"`. -/
theorem score_trace_range_match (db : Db) (t : Trace) (fp : String) (ln : Int)
    (ch bp : Option String) (hcl : Bool) (lids : List String)
    (h : "range_match" ∈ (score_trace db t fp ln ch bp hcl lids).2) :
    ∃ mf, find_matching_file (resolvedFiles t) fp = some mf
      ∧ check_range mf ln = some "exact" := by
  simp only [score_trace] at h
  rcases mem_scoreTs h with h | h
  swap
  · simp at h
  rcases hmf : find_matching_file (resolvedFiles t) fp with _ | mf <;>
    rw [hmf] at h <;> dsimp only at h
  · rcases mem_scoreBase h with h | h <;> simp at h
  · rcases mem_scoreHash h with h | h
    swap
    · simp at h
    rcases mem_scoreRange h with h | h | h
    · rcases mem_scoreBase h with h | h <;> simp at h
    · exact ⟨mf, rfl, h.2⟩
    · simp at h

/-- `range_overlap` fires only when the matched file entry's range check
at the scored line answers `"overlap"`. -/
theorem score_trace_range_overlap (db : Db) (t : Trace) (fp : String) (ln : Int)
    (ch bp : Option String) (hcl : Bool) (lids : List String)
    (h : "range_overlap" ∈ (score_trace db t fp ln ch bp hcl lids).2) :
    ∃ mf, find_matching_file (resolvedFiles t) fp = some mf
      ∧ check_range mf ln = some "overlap" := by
  simp only [score_trace] at h
  rcases mem_scoreTs h with h | h
  swap
  · simp at h
  rcases hmf : find_matching_file (resolvedFiles t) fp with _ | mf <;>
    rw [hmf] at h <;> dsimp only at h
  · rcases mem_scoreBase h with h | h <;> simp at h
  · rcases mem_scoreHash h with h | h
    swap
    · simp at h
    rcases mem_scoreRange h with h | h | h
    · rcases mem_scoreBase h with h | h <;> simp at h
    · simp at h
    · exact ⟨mf, rfl, h.2⟩

/-- C10 (amended): `blame_file` attributes each complete non-ledger
segment by one engine call at the midpoint `(start_line + end_line) // 2`;
two segments with equal `commit_sha`, `parent_sha`, `content_hash` and
`timestamp` whose midpoints coincide receive identical attribution
results; and a range signal can only come from a recorded range on the
matched file entry whose (for `range_match`) span, or (for
`range_overlap`) 5-line widened span, reaches the midpoint — so evidence
farther than 5 lines from the midpoint contributes no range signal,
while edge evidence within 5 lines of the midpoint may still contribute
`range_overlap` (see the counterexample). -/
theorem C10_midpoint_representative :
    (∀ (db : Db) (fp : String) (seg : Segment) (sl el : Int),
      seg.start_line = some sl → seg.end_line = some el → seg.commit_sha ≠ "" →
      ledgerTruthy (db.get_ledger seg.commit_sha) = false →
      blameSegment db fp seg = .ok (some ⟨sl, el,
        attribute_line db fp (midline sl el) seg.commit_sha seg.parent_sha
          seg.content_hash seg.timestamp⟩))
    ∧ (∀ (db : Db) (fp : String) (seg1 seg2 : Segment) (sl1 el1 sl2 el2 : Int),
        seg1.start_line = some sl1 → seg1.end_line = some el1 →
        seg2.start_line = some sl2 → seg2.end_line = some el2 →
        seg1.commit_sha = seg2.commit_sha → seg1.parent_sha = seg2.parent_sha →
        seg1.content_hash = seg2.content_hash → seg1.timestamp = seg2.timestamp →
        seg1.commit_sha ≠ "" →
        ledgerTruthy (db.get_ledger seg1.commit_sha) = false →
        midline sl1 el1 = midline sl2 el2 →
        ∃ r1 r2 : RawResult,
          blameSegment db fp seg1 = .ok (some r1)
            ∧ blameSegment db fp seg2 = .ok (some r2)
            ∧ r1.result = r2.result)
    ∧ (∀ (db : Db) (t : Trace) (fp : String) (ln : Int) (ch bp : Option String)
        (hcl : Bool) (lids : List String),
        ("range_match" ∈ (score_trace db t fp ln ch bp hcl lids).2 →
          ∃ mf, find_matching_file (resolvedFiles t) fp = some mf
            ∧ ∃ r ∈ collect_ranges mf, r.1 ≤ ln ∧ ln ≤ r.2)
        ∧ ("range_overlap" ∈ (score_trace db t fp ln ch bp hcl lids).2 →
          ∃ mf, find_matching_file (resolvedFiles t) fp = some mf
            ∧ ∃ r ∈ collect_ranges mf, r.1 - 5 ≤ ln ∧ ln ≤ r.2 + 5)) := by
  have hseg : ∀ (db : Db) (fp : String) (seg : Segment) (sl el : Int),
      seg.start_line = some sl → seg.end_line = some el → seg.commit_sha ≠ "" →
      ledgerTruthy (db.get_ledger seg.commit_sha) = false →
      blameSegment db fp seg = .ok (some ⟨sl, el,
        attribute_line db fp (midline sl el) seg.commit_sha seg.parent_sha
          seg.content_hash seg.timestamp⟩) := by
    intro db fp seg sl el h1 h2 h3 h4
    rw [blameSegment, h1, h2]
    dsimp only
    rw [if_neg h3, h4]
    simp
  refine ⟨hseg, ?_, ?_⟩
  · intro db fp seg1 seg2 sl1 el1 sl2 el2 h1 h2 h3 h4 hc hp hh ht hne hl hm
    refine ⟨_, _, hseg db fp seg1 sl1 el1 h1 h2 hne hl,
      hseg db fp seg2 sl2 el2 h3 h4 (hc ▸ hne) (hc ▸ hl), ?_⟩
    dsimp only
    rw [hm, hc, hp, hh, ht]
  · intro db t fp ln ch bp hcl lids
    constructor
    · intro h
      obtain ⟨mf, hmf, hcr⟩ := score_trace_range_match db t fp ln ch bp hcl lids h
      exact ⟨mf, hmf, check_range_exact_mem mf ln hcr⟩
    · intro h
      obtain ⟨mf, hmf, hcr⟩ := score_trace_range_overlap db t fp ln ch bp hcl lids h
      exact ⟨mf, hmf, check_range_overlap_mem mf ln hcr⟩

/-- C10 (witness): the midpoint characterization evaluated on the
segment 1–20 against the empty database (midpoint line 10). -/
theorem C10_midpoint_representative_witness :
    blameSegment emptyDb "src/a.py" segEdge = .ok (some ⟨1, 20,
      attribute_line emptyDb "src/a.py" (midline 1 20) segEdge.commit_sha
        segEdge.parent_sha segEdge.content_hash segEdge.timestamp⟩) :=
  C10_midpoint_representative.1 emptyDb "src/a.py" segEdge 1 20
    (by rfl) (by rfl) (by decide) (by rfl)

/-- No 6-bit value maps to the padding character. -/
theorem b64Char_ne_pad (v : Nat) : b64Char v ≠ '=' := by
  rcases Nat.lt_or_ge v 64 with h | h
  · have hfin : ∀ x : Fin 64, b64Char x.val ≠ '=' := by decide
    exact hfin ⟨v, h⟩
  · rw [b64Char, List.getD_eq_default]
    · decide
    · simpa [b64Alphabet] using h

/-- No 6-bit value maps to a dot. -/
theorem b64Char_ne_dot (v : Nat) : b64Char v ≠ '.' := by
  rcases Nat.lt_or_ge v 64 with h | h
  · have hfin : ∀ x : Fin 64, b64Char x.val ≠ '.' := by decide
    exact hfin ⟨v, h⟩
  · rw [b64Char, List.getD_eq_default]
    · decide
    · simpa [b64Alphabet] using h

/-- Decoding inverts the alphabet on 6-bit values. -/
theorem b64Val_b64Char {v : Nat} (h : v < 64) : b64Val (b64Char v) = some v := by
  have hfin : ∀ x : Fin 64, b64Val (b64Char x.val) = some x.val := by decide
  exact hfin ⟨v, h⟩

/-- Every character of a base64url encoding is an alphabet character or
padding. -/
theorem mem_b64urlEncode {ch : Char} {bs : List Nat}
    (h : ch ∈ b64urlEncode bs) : (∃ v, ch = b64Char v) ∨ ch = '=' := by
  induction bs using b64urlEncode.induct with
  | case1 => simp [b64urlEncode] at h
  | case2 a =>
    simp only [b64urlEncode, List.mem_cons, List.not_mem_nil, or_false] at h
    rcases h with h | h | h | h <;> simp [h]
  | case3 a b =>
    simp only [b64urlEncode, List.mem_cons, List.not_mem_nil, or_false] at h
    rcases h with h | h | h | h <;> simp [h]
  | case4 a b c rest ih =>
    simp only [b64urlEncode, List.mem_cons] at h
    rcases h with h | h | h | h | h <;> first | simp [h] | exact ih h

/-- The encoding never contains a dot. -/
theorem not_dot_b64urlEncode {bs : List Nat} : '.' ∉ b64urlEncode bs := by
  intro h
  rcases mem_b64urlEncode h with ⟨v, hv⟩ | hv
  · exact b64Char_ne_dot v hv.symm
  · exact absurd hv (by decide)

/-- Stripped output is a subset of the original characters. -/
theorem mem_of_mem_rstripEq {ch : Char} {cs : List Char}
    (h : ch ∈ rstripEq cs) : ch ∈ cs := by
  rw [rstripEq, List.mem_reverse] at h
  have := (List.dropWhile_sublist (l := cs.reverse) (p := fun c => c = '=')).mem h
  simpa using this

/-- The encoding is empty only for empty input. -/
theorem b64urlEncode_eq_nil_iff {bs : List Nat} :
    b64urlEncode bs = [] ↔ bs = [] := by
  induction bs using b64urlEncode.induct <;> simp [b64urlEncode]

/-- The encoding's length is a multiple of 4. -/
theorem b64urlEncode_length_mod4 (bs : List Nat) :
    (b64urlEncode bs).length % 4 = 0 := by
  induction bs using b64urlEncode.induct with
  | case1 => rfl
  | case2 a => simp [b64urlEncode]
  | case3 a b => simp [b64urlEncode]
  | case4 a b c rest ih =>
    simp only [b64urlEncode, List.length_cons]
    omega

/-- A stripped encoding is empty only when the encoding was empty. -/
theorem rstripEq_eq_nil_iff {cs : List Char} :
    rstripEq cs = [] ↔ ∀ ch ∈ cs, ch = '=' := by
  rw [rstripEq]
  simp [List.dropWhile_eq_nil_iff]

/-- Stripping trailing padding commutes with prepending a padding-free
block. -/
theorem rstripEq_append {xs ys : List Char} (hys : rstripEq ys ≠ []) :
    rstripEq (xs ++ ys) = xs ++ rstripEq ys := by
  rw [rstripEq, List.reverse_append, List.dropWhile_append]
  have : ¬(ys.reverse.dropWhile (fun c => c = '=')).isEmpty = true := by
    intro hcon
    apply hys
    rw [rstripEq, List.isEmpty_iff.mp hcon, List.reverse_nil]
  rw [if_neg this, List.reverse_append, List.reverse_reverse, rstripEq]

/-- Re-padding commutes with prepending a block of length divisible
by 4. -/
theorem repadEq_append {xs ys : List Char} (hxs : xs.length % 4 = 0) :
    repadEq (xs ++ ys) = xs ++ repadEq ys := by
  rw [repadEq, repadEq, List.length_append, List.append_assoc]
  congr 3
  omega

/-- A non-empty encoding starts with an alphabet character. -/
theorem b64urlEncode_head {bs : List Nat} (h : bs ≠ []) :
    ∃ v rest, b64urlEncode bs = b64Char v :: rest := by
  induction bs using b64urlEncode.induct with
  | case1 => exact absurd rfl h
  | case2 a => exact ⟨a / 4, _, rfl⟩
  | case3 a b => exact ⟨a / 4, _, rfl⟩
  | case4 a b c rest ih => exact ⟨a / 4, _, rfl⟩

/-- The alphabet-vs-padding test, in decidable form. -/
theorem decide_b64Char_pad (v : Nat) : decide (b64Char v = '=') = false :=
  decide_eq_false (b64Char_ne_pad v)

/-- Stripping the padding of an encoding and re-padding restores it. -/
theorem repadEq_rstripEq_encode (bs : List Nat) :
    repadEq (rstripEq (b64urlEncode bs)) = b64urlEncode bs := by
  induction bs using b64urlEncode.induct with
  | case1 => rfl
  | case2 a =>
    simp [b64urlEncode, rstripEq, List.dropWhile, decide_b64Char_pad, repadEq,
      List.replicate]
  | case3 a b =>
    simp [b64urlEncode, rstripEq, List.dropWhile, decide_b64Char_pad, repadEq,
      List.replicate]
  | case4 a b c rest ih =>
    rcases eq_or_ne rest [] with hr | hr
    · subst hr
      simp [b64urlEncode, rstripEq, List.dropWhile, decide_b64Char_pad, repadEq,
        List.replicate]
    · obtain ⟨v, tail, hhead⟩ := b64urlEncode_head hr
      have hne : rstripEq (b64urlEncode rest) ≠ [] := by
        intro hcon
        rw [rstripEq_eq_nil_iff] at hcon
        exact b64Char_ne_pad v
          (hcon _ (by rw [hhead]; exact List.mem_cons_self _ _))
      have hw : b64urlEncode (a :: b :: c :: rest)
          = [b64Char (a / 4), b64Char (a % 4 * 16 + b / 16),
              b64Char (b % 16 * 4 + c / 64), b64Char (c % 64)]
            ++ b64urlEncode rest := by
        simp [b64urlEncode]
      rw [hw, rstripEq_append hne, repadEq_append (by simp), ih]

/-- Decoding a base64url encoding of a byte string recovers the bytes. -/
theorem b64urlDecode_b64urlEncode {bs : List Nat} (h : ∀ x ∈ bs, x < 256) :
    b64urlDecode (b64urlEncode bs) = some bs := by
  induction bs using b64urlEncode.induct with
  | case1 => rfl
  | case2 a =>
    have ha := h a (by simp)
    rw [b64urlEncode, b64urlDecode, if_pos ⟨rfl, rfl, rfl⟩,
      b64Val_b64Char (by omega), b64Val_b64Char (by omega)]
    simp only [Option.bind_some, Option.pure_def, Option.bind_eq_bind,
      Option.some_bind, Option.some.injEq]
    congr 1
    omega
  | case3 a b =>
    have ha := h a (by simp)
    have hb := h b (by simp)
    rw [b64urlEncode, b64urlDecode,
      if_neg (fun hcon => b64Char_ne_pad (b % 16 * 4) hcon.2.1),
      if_pos ⟨rfl, rfl⟩, b64Val_b64Char (by omega),
      b64Val_b64Char (by omega), b64Val_b64Char (by omega)]
    simp only [Option.bind_some, Option.pure_def, Option.bind_eq_bind,
      Option.some_bind, Option.some.injEq]
    congr 1
    · omega
    · congr 1
      omega
  | case4 a b c rest ih =>
    have ha := h a (by simp)
    have hb := h b (by simp)
    have hc := h c (by simp)
    have ihr := ih (fun x hx => h x (by simp [hx]))
    rw [b64urlEncode, b64urlDecode,
      if_neg (fun hcon => b64Char_ne_pad (c % 64) hcon.2.2),
      if_neg (fun hcon => b64Char_ne_pad (c % 64) hcon.2),
      b64Val_b64Char (by omega), b64Val_b64Char (by omega),
      b64Val_b64Char (by omega), b64Val_b64Char (by omega), ihr]
    simp only [Option.bind_some, Option.pure_def, Option.bind_eq_bind,
      Option.some_bind, Option.some.injEq]
    congr 1
    · omega
    · congr 1
      · omega
      · congr 1
        omega

/-- Splitting at the first dot inverts gluing a dot-free prefix to a
suffix. -/
theorem splitFirstDot_append {xs : List Char} (ys : List Char)
    (h : '.' ∉ xs) : splitFirstDot (xs ++ '.' :: ys) = some (xs, ys) := by
  induction xs with
  | nil => simp [splitFirstDot]
  | cons x xs ih =>
    have hx : x ≠ '.' := by
      intro hcon
      exact h (by simp [hcon])
    rw [List.cons_append, splitFirstDot, if_neg hx,
      ih (fun hc => h (List.mem_cons_of_mem x hc))]
    rfl

/-- Every unicode scalar value is below 0x110000. -/
theorem char_toNat_lt (c : Char) : c.toNat < 1114112 := by
  rcases c.valid with h | ⟨_, h2⟩
  · exact lt_trans h (by norm_num)
  · exact h2

/-- UTF-8 encoding produces bytes. -/
theorem mem_utf8Encode_lt {x : Nat} {s : List Char} (h : x ∈ utf8Encode s) :
    x < 256 := by
  rw [utf8Encode, List.mem_flatMap] at h
  obtain ⟨c, _, hx⟩ := h
  have hc := char_toNat_lt c
  rw [utf8EncodeChar] at hx
  split_ifs at hx <;> simp only [List.mem_cons, List.not_mem_nil, or_false] at hx <;>
    rcases hx with hx | hx | hx | hx <;> omega

/-- Strict UTF-8 decoding inverts encoding on ASCII strings. -/
theorem utf8Decode_utf8Encode_ascii {s : List Char}
    (h : ∀ c ∈ s, c.toNat < 128) :
    utf8Decode (utf8Encode s) = some s := by
  induction s with
  | nil => rfl
  | cons c s ih =>
    have hc := h c (by simp)
    have hec : utf8EncodeChar c = [c.toNat] := by
      rw [utf8EncodeChar]
      exact if_pos hc
    have henc : utf8Encode (c :: s) = c.toNat :: utf8Encode s := by
      rw [utf8Encode, List.flatMap_cons, hec, List.singleton_append]
      rfl
    rw [utf8Decode, henc, List.length_cons, utf8DecodeGo.eq_def]
    dsimp only
    rw [if_pos hc]
    rw [utf8Decode] at ih
    rw [ih (fun x hx => h x (by simp [hx]))]
    simp [Char.ofNat_toNat]

/-- Hex digit characters are ASCII. -/
theorem hexDigitChar_toNat_lt (n : Nat) : (hexDigitChar n).toNat < 128 := by
  rcases Nat.lt_or_ge n 16 with h | h
  · have hfin : ∀ x : Fin 16, (hexDigitChar x.val).toNat < 128 := by decide
    exact hfin ⟨n, h⟩
  · rw [hexDigitChar, List.getD_eq_default]
    · decide
    · simpa using h

/-- A hex digest is ASCII. -/
theorem mem_hexdigest_toNat_lt {c : Char} {bs : List Nat}
    (h : c ∈ hexdigest bs) : c.toNat < 128 := by
  rw [hexdigest, List.mem_flatMap] at h
  obtain ⟨b, _, hc⟩ := h
  simp only [List.mem_cons, List.not_mem_nil, or_false] at hc
  rcases hc with hc | hc <;> rw [hc] <;> exact hexDigitChar_toNat_lt _

/-- A hex digest has twice the length of its input. -/
theorem hexdigest_length (bs : List Nat) :
    (hexdigest bs).length = 2 * bs.length := by
  induction bs with
  | nil => rfl
  | cons b bs ih =>
    rw [hexdigest, List.flatMap_cons] at *
    simp only [List.length_append, List.length_cons, List.length_nil, ih]
    omega

/-- One compression round preserves the 8-word state shape. -/
theorem compressStep_length {st : List Nat} (kw : Nat × Nat)
    (h : st.length = 8) : (compressStep st kw).length = 8 := by
  rw [compressStep.eq_def]
  split
  · rfl
  · exact h

/-- The compression fold preserves the 8-word state shape. -/
theorem foldl_compressStep_length (l : List (Nat × Nat)) {st : List Nat}
    (h : st.length = 8) : (l.foldl compressStep st).length = 8 := by
  induction l generalizing st with
  | nil => exact h
  | cons kw l ih => exact ih (compressStep_length kw h)

/-- Processing a block preserves the 8-word state shape. -/
theorem processBlock_length {h : List Nat} (block : List Nat)
    (hh : h.length = 8) : (processBlock h block).length = 8 := by
  rw [processBlock]
  simp only [List.length_map, List.length_zip, hh,
    foldl_compressStep_length _ hh]
  omega

/-- The block fold preserves the 8-word state shape. -/
theorem foldl_processBlock_length (blocks : List (List Nat)) {h : List Nat}
    (hh : h.length = 8) : (blocks.foldl processBlock h).length = 8 := by
  induction blocks generalizing h with
  | nil => exact hh
  | cons b blocks ih => exact ih (processBlock_length b hh)

/-- Big-endian expansion produces the requested number of bytes. -/
theorem beBytes_length (k n : Nat) : (beBytes k n).length = k := by
  rw [beBytes, List.length_map, List.length_range]

/-- Word-to-byte flattening quadruples the length. -/
theorem flatMap_beBytes4_length (l : List Nat) :
    (l.flatMap (beBytes 4)).length = 4 * l.length := by
  induction l with
  | nil => rfl
  | cons w l ih =>
    rw [List.flatMap_cons, List.length_append, beBytes_length, ih,
      List.length_cons]
    omega

/-- A SHA-256 digest is 32 bytes long. -/
theorem sha256_length (msg : List Nat) : (sha256 msg).length = 32 := by
  rw [sha256, flatMap_beBytes4_length, foldl_processBlock_length _ (by rfl)]

/-- An HMAC-SHA256 digest is 32 bytes long. -/
theorem hmacSha256_length (key msg : List Nat) :
    (hmacSha256 key msg).length = 32 := sha256_length _

/-- A token signature is 16 characters long. -/
theorem tokenSign_length (secret payload : List Char) :
    (tokenSign secret payload).length = 16 := by
  rw [tokenSign, List.length_take, hexdigest_length, hmacSha256_length]
  omega

/-- Token signatures are ASCII. -/
theorem mem_tokenSign_toNat_lt {c : Char} {secret payload : List Char}
    (h : c ∈ tokenSign secret payload) : c.toNat < 128 :=
  mem_hexdigest_toNat_lt (List.take_subset 16 _ h)

/-- `Char.ofNat` inverts `Char.toNat` below the surrogate range. -/
theorem char_toNat_ofNat {n : Nat} (h : n < 55296) :
    (Char.ofNat n).toNat = n := by
  rw [Char.ofNat, dif_pos]
  · rfl
  · exact Or.inl (by exact_mod_cast h)

/-- Flipping one bit of one ASCII character changes the string. -/
theorem flipBitAt_ne {cs : List Char} {i b : Nat} (hi : i < cs.length)
    (hb : b < 8) (hascii : ∀ c ∈ cs, c.toNat < 128) :
    flipBitAt cs i b ≠ cs := by
  intro hcon
  have hx : cs[i].toNat < 128 := hascii _ (cs.getElem_mem hi)
  have hset : (flipBitAt cs i b)[i]? = some (Char.ofNat (cs[i].toNat ^^^ 2 ^ b)) := by
    simp only [flipBitAt]
    rw [List.getD_eq_getElem cs ' ' hi]
    exact List.getElem?_set_self hi
  rw [hcon, List.getElem?_eq_getElem hi, Option.some.injEq] at hset
  have hlt : cs[i].toNat ^^^ 2 ^ b < 256 := by
    have h2 : (2 : Nat) ^ b < 256 := by
      calc (2 : Nat) ^ b < 2 ^ 8 := Nat.pow_lt_pow_right (by omega) hb
      _ = 256 := by norm_num
    exact Nat.xor_lt_two_pow (n := 8) (by omega) (by omega)
  have htn : cs[i].toNat = cs[i].toNat ^^^ 2 ^ b := by
    conv_lhs => rw [hset]
    exact char_toNat_ofNat (by omega)
  have hbit := congrArg (fun x => x.testBit b) htn
  simp only [Nat.testBit_xor, Nat.testBit_two_pow_self] at hbit
  rcases hbool : cs[i].toNat.testBit b <;> rw [hbool] at hbit <;> simp at hbit

/-- Parsing inverts the hex digit table. -/
theorem hexVal_hexDigitChar {d : Nat} (h : d < 16) :
    hexVal (hexDigitChar d) = some d := by
  have hfin : ∀ x : Fin 16, hexVal (hexDigitChar x.val) = some x.val := by decide
  exact hfin ⟨d, h⟩

/-- Decimal digit characters scan as digits with the right value. -/
theorem digitChar_isDigit {d : Nat} (h : d < 10) :
    (Char.ofNat (48 + d)).isDigit = true ∧ (Char.ofNat (48 + d)).toNat = 48 + d := by
  have hfin : ∀ x : Fin 10,
      (Char.ofNat (48 + x.val)).isDigit = true
        ∧ (Char.ofNat (48 + x.val)).toNat = 48 + x.val := by decide
  exact hfin ⟨d, h⟩

/-- The number scanner stops at a non-digit. -/
theorem parseNatGo_stop (acc : Nat) {rest : List Char}
    (h : ∀ c, rest.head? = some c → c.isDigit = false) :
    parseNatGo acc rest = (acc, rest) := by
  rcases rest with _ | ⟨c, r⟩
  · rfl
  · rw [parseNatGo, if_neg]
    simp [h c rfl]

/-- The number scanner consumes exactly a block of mapped digits. -/
theorem parseNatGo_digits (ds : List Nat) (acc : Nat) (rest : List Char)
    (hds : ∀ d ∈ ds, d < 10)
    (hrest : ∀ c, rest.head? = some c → c.isDigit = false) :
    parseNatGo acc (ds.map (fun d => Char.ofNat (48 + d)) ++ rest)
      = (ds.foldl (fun a d => a * 10 + d) acc, rest) := by
  induction ds generalizing acc with
  | nil => exact parseNatGo_stop acc hrest
  | cons d ds ih =>
    have hd := digitChar_isDigit (hds d (by simp))
    rw [List.map_cons, List.cons_append, parseNatGo, if_pos hd.1, hd.2]
    have : 48 + d - 48 = d := by omega
    rw [this, List.foldl_cons]
    exact ih (acc * 10 + d) (fun x hx => hds x (by simp [hx]))

/-- Big-endian digit folding computes the number back from its digits. -/
theorem foldl_reverse_digits (n : Nat) :
    ((Nat.digits 10 n).reverse).foldl (fun a d => a * 10 + d) 0 = n := by
  have key : ∀ l : List Nat,
      l.reverse.foldl (fun a d => a * 10 + d) 0 = Nat.ofDigits 10 l := by
    intro l
    induction l with
    | nil => rfl
    | cons d l ih =>
      rw [List.reverse_cons, List.foldl_append, ih, Nat.ofDigits_cons]
      simp only [List.foldl_cons, List.foldl_nil]
      ring
  rw [key, Nat.ofDigits_digits]

/-- Scanning the decimal representation of `n` yields `n`. -/
theorem parseNat_natRepr (n : Nat) (rest : List Char)
    (hrest : ∀ c, rest.head? = some c → c.isDigit = false) :
    parseNat (natRepr n ++ rest) = some (n, rest) := by
  rcases eq_or_ne n 0 with h0 | h0
  · subst h0
    rw [natRepr, if_pos rfl, List.cons_append, parseNat, if_pos (by decide)]
    rw [show ('0').toNat - 48 = 0 from by decide, List.nil_append,
      parseNatGo_stop 0 hrest]
  · rw [natRepr, if_neg h0, ← List.map_reverse]
    have hds : ∀ d ∈ (Nat.digits 10 n).reverse, d < 10 := by
      intro d hd
      exact Nat.digits_lt_base (by norm_num) (List.mem_reverse.mp hd)
    rcases hd0 : (Nat.digits 10 n).reverse with _ | ⟨d, ds⟩
    · exfalso
      apply h0
      have := congrArg List.reverse hd0
      rw [List.reverse_reverse] at this
      simpa using Nat.digits_eq_nil_iff_eq_zero.mp (by simpa using this)
    · have hdlt : d < 10 := hds d (by rw [hd0]; simp)
      have hdd := digitChar_isDigit hdlt
      rw [List.map_cons, List.cons_append, parseNat, if_pos hdd.1, hdd.2]
      have hsub : 48 + d - 48 = d := by omega
      rw [hsub,
        parseNatGo_digits ds d rest (fun x hx => hds x (by rw [hd0]; simp [hx])) hrest]
      have := foldl_reverse_digits n
      rw [hd0, List.foldl_cons] at this
      simp only [Nat.zero_mul, Nat.zero_add] at this
      rw [this]

/-- Unfolding the scanner at a `\uXXXX` escape. -/
theorem parseJStrGo_bslash_u (f : Nat) (t : List Char) :
    parseJStrGo (f + 1) (bslash :: 'u' :: t)
      = parseJStrU (fun t2 => parseJStrGo f t2) t := by
  rw [parseJStrGo.eq_def]
  dsimp only
  rw [if_neg (show ¬(bslash = qmark) by decide),
    if_pos (show bslash = bslash from rfl)]
  rw [parseJStrEscF.eq_def]
  dsimp only
  rw [if_neg (show ¬(('u' : Char) = qmark) by decide),
    if_neg (show ¬(('u' : Char) = bslash) by decide),
    if_neg (show ¬(('u' : Char) = '/') by decide),
    if_neg (show ¬(('u' : Char) = 'b') by decide),
    if_neg (show ¬(('u' : Char) = 'f') by decide),
    if_neg (show ¬(('u' : Char) = 'n') by decide),
    if_neg (show ¬(('u' : Char) = 'r') by decide),
    if_neg (show ¬(('u' : Char) = 't') by decide),
    if_pos (show ('u' : Char) = 'u' from rfl)]

/-- Unfolding the hex-quad continuation when all four digits scan. -/
theorem parseJStrU_vals {go : List Char → Option (List Char × List Char)}
    {d1 d2 d3 d4 : Char} {v1 v2 v3 v4 : Nat} {t : List Char}
    (h1 : hexVal d1 = some v1) (h2 : hexVal d2 = some v2)
    (h3 : hexVal d3 = some v3) (h4 : hexVal d4 = some v4) :
    parseJStrU go (d1 :: d2 :: d3 :: d4 :: t) =
      (if 55296 ≤ v1 * 4096 + v2 * 256 + v3 * 16 + v4
          ∧ v1 * 4096 + v2 * 256 + v3 * 16 + v4 ≤ 56319 then
        parseJStrLoPair go (v1 * 4096 + v2 * 256 + v3 * 16 + v4) t
      else if 56320 ≤ v1 * 4096 + v2 * 256 + v3 * 16 + v4
          ∧ v1 * 4096 + v2 * 256 + v3 * 16 + v4 ≤ 57343 then none
      else (go t).map (fun p =>
        (Char.ofNat (v1 * 4096 + v2 * 256 + v3 * 16 + v4) :: p.1, p.2))) := by
  rw [parseJStrU.eq_def]
  dsimp only
  rw [h1, h2, h3, h4]

/-- Unfolding the low-surrogate continuation when all four digits scan. -/
theorem parseJStrLoPair_vals {go : List Char → Option (List Char × List Char)}
    (code : Nat) {j1 j2 j3 j4 : Char} {w1 w2 w3 w4 : Nat} {t : List Char}
    (h1 : hexVal j1 = some w1) (h2 : hexVal j2 = some w2)
    (h3 : hexVal j3 = some w3) (h4 : hexVal j4 = some w4) :
    parseJStrLoPair go code (bslash :: 'u' :: j1 :: j2 :: j3 :: j4 :: t) =
      (if 56320 ≤ w1 * 4096 + w2 * 256 + w3 * 16 + w4
          ∧ w1 * 4096 + w2 * 256 + w3 * 16 + w4 ≤ 57343 then
        (go t).map (fun p =>
          (Char.ofNat (65536 + (code - 55296) * 1024
            + (w1 * 4096 + w2 * 256 + w3 * 16 + w4 - 56320)) :: p.1, p.2))
      else none) := by
  rw [parseJStrLoPair.eq_def]
  dsimp only
  rw [if_pos (show bslash = bslash ∧ ('u' : Char) = 'u' from ⟨rfl, rfl⟩)]
  rw [h1, h2, h3, h4]

set_option maxHeartbeats 2000000 in
/-- The string scanner inverts the ASCII escape encoder, for any
sufficient fuel. -/
theorem parseJStrGo_escaped (u : List Char) :
    ∀ (rest : List Char) (fuel : Nat),
      (u.flatMap escapeChar).length + 1 ≤ fuel →
      parseJStrGo fuel (u.flatMap escapeChar ++ qmark :: rest) = some (u, rest) := by
  induction u with
  | nil =>
    intro rest fuel hf
    rcases fuel with _ | f
    · omega
    · rw [List.flatMap_nil, List.nil_append]
      show parseJStrGo (f + 1) (qmark :: rest) = some ([], rest)
      rfl
  | cons c u ih =>
    intro rest fuel hf
    rw [List.flatMap_cons, List.length_append] at hf
    rcases fuel with _ | f
    · omega
    rw [List.flatMap_cons, List.append_assoc]
    have hlen1 : 1 ≤ (escapeChar c).length := by
      rw [escapeChar]
      split_ifs <;> simp
    have hih := ih rest f (by omega)
    by_cases hb : c = bslash
    · have hesc : escapeChar c = [bslash, bslash] := by
        rw [escapeChar, if_pos hb]
      rw [hesc] at hf ⊢
      subst hb
      show ((parseJStrGo f (u.flatMap escapeChar ++ qmark :: rest)).map
        (fun p => (bslash :: p.1, p.2))) = some (bslash :: u, rest)
      rw [hih]
      rfl
    · by_cases hq : c = qmark
      · have hesc : escapeChar c = [bslash, qmark] := by
          rw [escapeChar, if_neg hb, if_pos hq]
        rw [hesc] at hf ⊢
        subst hq
        show ((parseJStrGo f (u.flatMap escapeChar ++ qmark :: rest)).map
          (fun p => (qmark :: p.1, p.2))) = some (qmark :: u, rest)
        rw [hih]
        rfl
      · by_cases h8 : c.toNat = 8
        · have hesc : escapeChar c = [bslash, 'b'] := by
            rw [escapeChar, if_neg hb, if_neg hq, if_pos h8]
          rw [hesc] at hf ⊢
          show ((parseJStrGo f (u.flatMap escapeChar ++ qmark :: rest)).map
            (fun p => (Char.ofNat 8 :: p.1, p.2))) = some (c :: u, rest)
          rw [hih, ← h8, Char.ofNat_toNat]
          rfl
        · by_cases h9 : c.toNat = 9
          · have hesc : escapeChar c = [bslash, 't'] := by
              rw [escapeChar, if_neg hb, if_neg hq, if_neg h8, if_pos h9]
            rw [hesc] at hf ⊢
            show ((parseJStrGo f (u.flatMap escapeChar ++ qmark :: rest)).map
              (fun p => (Char.ofNat 9 :: p.1, p.2))) = some (c :: u, rest)
            rw [hih, ← h9, Char.ofNat_toNat]
            rfl
          · by_cases h10 : c.toNat = 10
            · have hesc : escapeChar c = [bslash, 'n'] := by
                rw [escapeChar, if_neg hb, if_neg hq, if_neg h8, if_neg h9,
                  if_pos h10]
              rw [hesc] at hf ⊢
              show ((parseJStrGo f (u.flatMap escapeChar ++ qmark :: rest)).map
                (fun p => (Char.ofNat 10 :: p.1, p.2))) = some (c :: u, rest)
              rw [hih, ← h10, Char.ofNat_toNat]
              rfl
            · by_cases h12 : c.toNat = 12
              · have hesc : escapeChar c = [bslash, 'f'] := by
                  rw [escapeChar, if_neg hb, if_neg hq, if_neg h8, if_neg h9,
                    if_neg h10, if_pos h12]
                rw [hesc] at hf ⊢
                show ((parseJStrGo f (u.flatMap escapeChar ++ qmark :: rest)).map
                  (fun p => (Char.ofNat 12 :: p.1, p.2))) = some (c :: u, rest)
                rw [hih, ← h12, Char.ofNat_toNat]
                rfl
              · by_cases h13 : c.toNat = 13
                · have hesc : escapeChar c = [bslash, 'r'] := by
                    rw [escapeChar, if_neg hb, if_neg hq, if_neg h8, if_neg h9,
                      if_neg h10, if_neg h12, if_pos h13]
                  rw [hesc] at hf ⊢
                  show ((parseJStrGo f (u.flatMap escapeChar ++ qmark :: rest)).map
                    (fun p => (Char.ofNat 13 :: p.1, p.2))) = some (c :: u, rest)
                  rw [hih, ← h13, Char.ofNat_toNat]
                  rfl
                · by_cases hpr : 32 ≤ c.toNat ∧ c.toNat ≤ 126
                  · have hesc : escapeChar c = [c] := by
                      rw [escapeChar, if_neg hb, if_neg hq, if_neg h8, if_neg h9,
                        if_neg h10, if_neg h12, if_neg h13, if_pos hpr]
                    rw [hesc] at hf ⊢
                    show parseJStrGo (f + 1)
                      (c :: (u.flatMap escapeChar ++ qmark :: rest)) = some (c :: u, rest)
                    rw [parseJStrGo.eq_def]
                    dsimp only
                    rw [if_neg hq, if_neg hb, if_neg (by omega), hih]
                    rfl
                  · have hval : c.toNat < 55296 ∨ 57343 < c.toNat := by
                      rcases c.valid with hv | ⟨hv1, _⟩
                      · exact Or.inl hv
                      · exact Or.inr hv1
                    have hbig := char_toNat_lt c
                    by_cases hlt : c.toNat < 65536
                    · have hesc : escapeChar c = bslash :: 'u' :: hex4 c.toNat := by
                        rw [escapeChar, if_neg hb, if_neg hq, if_neg h8, if_neg h9,
                          if_neg h10, if_neg h12, if_neg h13, if_neg hpr, if_pos hlt]
                      rw [hesc]
                      simp only [hex4, List.cons_append, List.nil_append]
                      rw [parseJStrGo_bslash_u]
                      rw [parseJStrU_vals
                        (hexVal_hexDigitChar (show c.toNat / 4096 % 16 < 16 by omega))
                        (hexVal_hexDigitChar (show c.toNat / 256 % 16 < 16 by omega))
                        (hexVal_hexDigitChar (show c.toNat / 16 % 16 < 16 by omega))
                        (hexVal_hexDigitChar (show c.toNat % 16 < 16 by omega))]
                      have hcode : c.toNat / 4096 % 16 * 4096 + c.toNat / 256 % 16 * 256
                          + c.toNat / 16 % 16 * 16 + c.toNat % 16 = c.toNat := by omega
                      rw [hcode]
                      have hno1 : ¬(55296 ≤ c.toNat ∧ c.toNat ≤ 56319) := by
                        rcases hval with h | h <;> omega
                      have hno2 : ¬(56320 ≤ c.toNat ∧ c.toNat ≤ 57343) := by
                        rcases hval with h | h <;> omega
                      rw [if_neg hno1, if_neg hno2]
                      rw [hih, Char.ofNat_toNat]
                      rfl
                    · have hesc : escapeChar c =
                          (bslash :: 'u' :: hex4 (55296 + (c.toNat - 65536) / 1024))
                            ++ (bslash :: 'u' :: hex4 (56320 + (c.toNat - 65536) % 1024)) := by
                        rw [escapeChar, if_neg hb, if_neg hq, if_neg h8, if_neg h9,
                          if_neg h10, if_neg h12, if_neg h13, if_neg hpr, if_neg hlt]
                      rw [hesc]
                      simp only [hex4, List.cons_append, List.nil_append,
                        List.append_assoc]
                      rw [parseJStrGo_bslash_u]
                      rw [parseJStrU_vals
                        (hexVal_hexDigitChar
                          (show (55296 + (c.toNat - 65536) / 1024) / 4096 % 16 < 16 by omega))
                        (hexVal_hexDigitChar
                          (show (55296 + (c.toNat - 65536) / 1024) / 256 % 16 < 16 by omega))
                        (hexVal_hexDigitChar
                          (show (55296 + (c.toNat - 65536) / 1024) / 16 % 16 < 16 by omega))
                        (hexVal_hexDigitChar
                          (show (55296 + (c.toNat - 65536) / 1024) % 16 < 16 by omega))]
                      have hhi : (55296 + (c.toNat - 65536) / 1024) / 4096 % 16 * 4096
                          + (55296 + (c.toNat - 65536) / 1024) / 256 % 16 * 256
                          + (55296 + (c.toNat - 65536) / 1024) / 16 % 16 * 16
                          + (55296 + (c.toNat - 65536) / 1024) % 16
                          = 55296 + (c.toNat - 65536) / 1024 := by omega
                      rw [hhi]
                      rw [if_pos (show 55296 ≤ 55296 + (c.toNat - 65536) / 1024
                        ∧ 55296 + (c.toNat - 65536) / 1024 ≤ 56319 by omega)]
                      rw [parseJStrLoPair_vals _
                        (hexVal_hexDigitChar
                          (show (56320 + (c.toNat - 65536) % 1024) / 4096 % 16 < 16 by omega))
                        (hexVal_hexDigitChar
                          (show (56320 + (c.toNat - 65536) % 1024) / 256 % 16 < 16 by omega))
                        (hexVal_hexDigitChar
                          (show (56320 + (c.toNat - 65536) % 1024) / 16 % 16 < 16 by omega))
                        (hexVal_hexDigitChar
                          (show (56320 + (c.toNat - 65536) % 1024) % 16 < 16 by omega))]
                      have hlo : (56320 + (c.toNat - 65536) % 1024) / 4096 % 16 * 4096
                          + (56320 + (c.toNat - 65536) % 1024) / 256 % 16 * 256
                          + (56320 + (c.toNat - 65536) % 1024) / 16 % 16 * 16
                          + (56320 + (c.toNat - 65536) % 1024) % 16
                          = 56320 + (c.toNat - 65536) % 1024 := by omega
                      rw [hlo]
                      rw [if_pos (show 56320 ≤ 56320 + (c.toNat - 65536) % 1024
                        ∧ 56320 + (c.toNat - 65536) % 1024 ≤ 57343 by omega)]
                      have hcomb : 65536 + (55296 + (c.toNat - 65536) / 1024 - 55296) * 1024
                          + (56320 + (c.toNat - 65536) % 1024 - 56320) = c.toNat := by omega
                      rw [hcomb]
                      rw [hih, Char.ofNat_toNat]
                      rfl


/-- The scanner with the standard fuel inverts the escape encoder. -/
theorem parseJStr_escaped (u r : List Char) :
    parseJStr (u.flatMap escapeChar ++ qmark :: r) = some (u, r) := by
  rw [parseJStr]
  exact parseJStrGo_escaped u r _
    (by simp only [List.length_append, List.length_cons]; omega)

/-- Whitespace skipping stops at a quote. -/
theorem skipWs_qmark (t : List Char) : skipWs (qmark :: t) = qmark :: t := by
  rw [skipWs, if_neg (by decide)]

/-- Whitespace skipping stops at an opening brace. -/
theorem skipWs_lbrace (t : List Char) : skipWs (lbrace :: t) = lbrace :: t := by
  rw [skipWs, if_neg (by decide)]

/-- Whitespace skipping stops at a closing brace. -/
theorem skipWs_rbrace (t : List Char) : skipWs (rbrace :: t) = rbrace :: t := by
  rw [skipWs, if_neg (by decide)]

/-- Whitespace skipping stops at a colon. -/
theorem skipWs_colon (t : List Char) : skipWs (':' :: t) = ':' :: t := by
  rw [skipWs, if_neg (by decide)]

/-- Whitespace skipping stops at a comma. -/
theorem skipWs_comma (t : List Char) : skipWs (',' :: t) = ',' :: t := by
  rw [skipWs, if_neg (by decide)]

/-- Whitespace skipping consumes a space. -/
theorem skipWs_ws (t : List Char) : skipWs (' ' :: t) = skipWs t := by
  rw [skipWs, if_pos (Or.inl rfl)]

/-- A decimal digit character is not whitespace and is none of the
structural characters the value scanner dispatches on. -/
theorem digitChar_nospecial {d : Nat} (hd : d < 10) :
    ¬(Char.ofNat (48 + d) = ' ' ∨ Char.ofNat (48 + d) = '\t'
        ∨ Char.ofNat (48 + d) = '\n' ∨ Char.ofNat (48 + d) = '\r')
      ∧ ¬(Char.ofNat (48 + d) = qmark) ∧ ¬(Char.ofNat (48 + d) = lbrace)
      ∧ ¬(Char.ofNat (48 + d) = '-') := by
  have hfin : ∀ x : Fin 10,
      ¬(Char.ofNat (48 + x.val) = ' ' ∨ Char.ofNat (48 + x.val) = '\t'
          ∨ Char.ofNat (48 + x.val) = '\n' ∨ Char.ofNat (48 + x.val) = '\r')
        ∧ ¬(Char.ofNat (48 + x.val) = qmark)
        ∧ ¬(Char.ofNat (48 + x.val) = lbrace)
        ∧ ¬(Char.ofNat (48 + x.val) = '-') := by decide
  exact hfin ⟨d, hd⟩

/-- Whitespace skipping stops at a digit. -/
theorem skipWs_digit {d : Nat} (hd : d < 10) (t : List Char) :
    skipWs (Char.ofNat (48 + d) :: t) = Char.ofNat (48 + d) :: t := by
  rw [skipWs, if_neg (digitChar_nospecial hd).1]

/-- Python's decimal representation starts with a digit character. -/
theorem natRepr_head (n : Nat) :
    ∃ d t, d < 10 ∧ natRepr n = Char.ofNat (48 + d) :: t := by
  rcases eq_or_ne n 0 with h0 | h0
  · subst h0
    refine ⟨0, [], by norm_num, ?_⟩
    rw [natRepr, if_pos rfl]
  · rw [natRepr, if_neg h0, ← List.map_reverse]
    rcases hl : (Nat.digits 10 n).reverse with _ | ⟨d, t⟩
    · exfalso
      have h2 : Nat.digits 10 n = [] := by
        have h3 := congrArg List.reverse hl
        simpa using h3
      rw [Nat.digits_eq_nil_iff_eq_zero] at h2
      exact h0 h2
    · refine ⟨d, t.map (fun x => Char.ofNat (48 + x)), ?_, ?_⟩
      · have hdm : d ∈ Nat.digits 10 n := by
          rw [← List.mem_reverse, hl]
          simp
        exact Nat.digits_lt_base (by norm_num) hdm
      · rfl

/-- The characters of the literal key are fixed by the escape encoder. -/
theorem flatMap_escape_user_id :
    ("user_id".toList).flatMap escapeChar = "user_id".toList := by decide

/-- The characters of the literal key are fixed by the escape encoder. -/
theorem flatMap_escape_iat :
    ("iat".toList).flatMap escapeChar = "iat".toList := by decide

/-- The value scanner on an object opening brace. -/
theorem parseJValue_obj (F : Nat) (t : List Char) :
    parseJValue (F + 1) (lbrace :: t)
      = (parseJMembers F true t).map (fun p => (JValue.jobj p.1, p.2)) := by
  rw [parseJValue, skipWs_lbrace]
  dsimp only
  rw [if_neg (by decide), if_pos rfl]

/-- The value scanner skips a leading space. -/
theorem parseJValue_ws (F : Nat) (hF : 1 ≤ F) (t : List Char) :
    parseJValue F (' ' :: t) = parseJValue F t := by
  obtain ⟨K, rfl⟩ : ∃ K, F = K + 1 := ⟨F - 1, by omega⟩
  rw [parseJValue, skipWs_ws]
  conv_rhs => rw [parseJValue]

/-- The value scanner on an opening quote. -/
theorem parseJValue_str (F : Nat) (hF : 1 ≤ F) (t : List Char) :
    parseJValue F (qmark :: t)
      = (parseJStr t).map (fun p => (JValue.jstr p.1, p.2)) := by
  obtain ⟨K, rfl⟩ : ∃ K, F = K + 1 := ⟨F - 1, by omega⟩
  rw [parseJValue, skipWs_qmark]
  dsimp only
  rw [if_pos rfl]

/-- The value scanner on a decimal integer. -/
theorem parseJValue_num (F : Nat) (hF : 1 ≤ F) (n : Nat) (t : List Char)
    (h : ∀ c, t.head? = some c → c.isDigit = false) :
    parseJValue F (natRepr n ++ t) = some (JValue.jnum (n : Int), t) := by
  obtain ⟨K, rfl⟩ : ∃ K, F = K + 1 := ⟨F - 1, by omega⟩
  obtain ⟨d, td, hd, hnat⟩ := natRepr_head n
  rw [hnat, List.cons_append, parseJValue, skipWs_digit hd]
  dsimp only
  rw [if_neg (digitChar_nospecial hd).2.1, if_neg (digitChar_nospecial hd).2.2.1,
    if_neg (digitChar_nospecial hd).2.2.2, if_pos (digitChar_isDigit hd).1]
  rw [← List.cons_append, ← hnat, parseNat_natRepr n t h]
  rfl

/-- The member scanner on the trailing `"iat": <n>}` member. -/
theorem parseJMembers_iat (F : Nat) (hF : 2 ≤ F) (n : Nat) :
    parseJMembers F false
      (' ' :: qmark :: ("iat".toList
        ++ qmark :: ':' :: ' ' :: (natRepr n ++ [rbrace])))
      = some ([("iat".toList, JValue.jnum (n : Int))], []) := by
  obtain ⟨K, rfl⟩ : ∃ K, F = K + 1 := ⟨F - 1, by omega⟩
  rw [parseJMembers, skipWs_ws, skipWs_qmark]
  dsimp only
  rw [if_neg (by decide), if_pos rfl]
  conv_lhs => rw [← flatMap_escape_iat]
  rw [parseJStr_escaped]
  dsimp only
  rw [skipWs_colon]
  dsimp only
  rw [if_pos rfl]
  rw [parseJValue_ws K (by omega),
    parseJValue_num K (by omega) n [rbrace]
      (by intro c hc; simp at hc; subst hc; decide)]
  dsimp only
  rw [skipWs_rbrace]
  dsimp only
  rw [if_neg (by decide), if_pos rfl]

/-- The member scanner on the full two-member payload body. -/
theorem parseJMembers_user (F : Nat) (u : List Char) (n : Nat) (hF : 3 ≤ F) :
    parseJMembers F true
      (qmark :: ("user_id".toList ++ qmark :: ':' :: ' ' :: qmark ::
        (u.flatMap escapeChar ++ qmark :: ',' :: ' ' :: qmark ::
          ("iat".toList ++ qmark :: ':' :: ' ' :: (natRepr n ++ [rbrace])))))
      = some ([("user_id".toList, JValue.jstr u),
          ("iat".toList, JValue.jnum (n : Int))], []) := by
  obtain ⟨K, rfl⟩ : ∃ K, F = K + 1 := ⟨F - 1, by omega⟩
  rw [parseJMembers, skipWs_qmark]
  dsimp only
  rw [if_neg (by decide), if_pos rfl]
  conv_lhs => rw [← flatMap_escape_user_id]
  rw [parseJStr_escaped]
  dsimp only
  rw [skipWs_colon]
  dsimp only
  rw [if_pos rfl]
  rw [parseJValue_ws K (by omega), parseJValue_str K (by omega)]
  rw [parseJStr_escaped]
  dsimp only [Option.map]
  rw [skipWs_comma]
  dsimp only
  rw [if_pos rfl]
  rw [parseJMembers_iat K (by omega) n]

/-- The value scanner recovers the two members of the dumped payload,
for any sufficient fuel. -/
theorem parseJValue_payload (u : List Char) (n : Nat) (F : Nat) (hF : 4 ≤ F) :
    parseJValue F (jsonDumpsPayload u n)
      = some (JValue.jobj [("user_id".toList, JValue.jstr u),
          ("iat".toList, JValue.jnum (n : Int))], []) := by
  obtain ⟨K, rfl⟩ : ∃ K, F = K + 3 + 1 := ⟨F - 4, by omega⟩
  have hshape : jsonDumpsPayload u n
      = lbrace :: qmark :: ("user_id".toList ++ qmark :: ':' :: ' ' :: qmark ::
          (u.flatMap escapeChar ++ qmark :: ',' :: ' ' :: qmark ::
            ("iat".toList ++ qmark :: ':' :: ' ' :: (natRepr n ++ [rbrace])))) := by
    simp [jsonDumpsPayload]
  rw [hshape, parseJValue_obj, parseJMembers_user (K + 3) u n (by omega)]
  rfl

/-- `json.loads` round-trips the dumped payload. -/
theorem jsonLoads_payload (u : List Char) (n : Nat) :
    jsonLoads (jsonDumpsPayload u n)
      = some (JValue.jobj [("user_id".toList, JValue.jstr u),
          ("iat".toList, JValue.jnum (n : Int))]) := by
  rw [jsonLoads,
    parseJValue_payload u n ((jsonDumpsPayload u n).length + 1)
      (by simp [jsonDumpsPayload])]
  rfl

/-- Hex quads are ASCII. -/
theorem mem_hex4_lt {c : Char} {m : Nat} (h : c ∈ hex4 m) : c.toNat < 128 := by
  rw [hex4] at h
  simp only [List.mem_cons, List.not_mem_nil, or_false] at h
  rcases h with h | h | h | h <;> subst h <;> exact hexDigitChar_toNat_lt _

/-- The escape encoder only emits ASCII characters. -/
theorem mem_escapeChar_lt {x c : Char} (h : x ∈ escapeChar c) : x.toNat < 128 := by
  rw [escapeChar] at h
  split_ifs at h with h1 h2 h3 h4 h5 h6 h7 h8 h9
  · simp only [List.mem_cons, List.not_mem_nil, or_false] at h
    rcases h with h | h <;> subst h <;> decide
  · simp only [List.mem_cons, List.not_mem_nil, or_false] at h
    rcases h with h | h <;> subst h <;> decide
  · simp only [List.mem_cons, List.not_mem_nil, or_false] at h
    rcases h with h | h <;> subst h <;> decide
  · simp only [List.mem_cons, List.not_mem_nil, or_false] at h
    rcases h with h | h <;> subst h <;> decide
  · simp only [List.mem_cons, List.not_mem_nil, or_false] at h
    rcases h with h | h <;> subst h <;> decide
  · simp only [List.mem_cons, List.not_mem_nil, or_false] at h
    rcases h with h | h <;> subst h <;> decide
  · simp only [List.mem_cons, List.not_mem_nil, or_false] at h
    rcases h with h | h <;> subst h <;> decide
  · simp only [List.mem_cons, List.not_mem_nil, or_false] at h
    subst h
    omega
  · simp only [List.mem_cons] at h
    rcases h with h | h | h
    · subst h; decide
    · subst h; decide
    · exact mem_hex4_lt h
  · rw [List.mem_append] at h
    rcases h with h | h <;>
      · simp only [List.mem_cons] at h
        rcases h with h | h | h
        · subst h; decide
        · subst h; decide
        · exact mem_hex4_lt h

/-- Decimal representations are ASCII. -/
theorem mem_natRepr_lt {c : Char} {n : Nat} (h : c ∈ natRepr n) :
    c.toNat < 128 := by
  rw [natRepr] at h
  split_ifs at h
  · simp only [List.mem_cons, List.not_mem_nil, or_false] at h
    subst h
    decide
  · rw [List.mem_reverse, List.mem_map] at h
    obtain ⟨d, hd, rfl⟩ := h
    have hd10 : d < 10 := Nat.digits_lt_base (by norm_num) hd
    rw [(digitChar_isDigit hd10).2]
    omega

/-- The dumped payload is pure ASCII (CPython `ensure_ascii=True`). -/
theorem mem_jsonDumpsPayload_lt {x : Char} {u : List Char} {n : Nat}
    (h : x ∈ jsonDumpsPayload u n) : x.toNat < 128 := by
  rw [jsonDumpsPayload, List.mem_append, List.mem_append, List.mem_append,
    List.mem_append, List.mem_append, List.mem_append, List.mem_append,
    List.mem_append] at h
  rcases h with ((((((((h | h) | h) | h) | h) | h) | h) | h) | h)
  · exact (show ∀ z ∈ ([lbrace, qmark] : List Char), z.toNat < 128 by decide) x h
  · exact (show ∀ z ∈ "user_id".toList, z.toNat < 128 by decide) x h
  · exact (show ∀ z ∈ ([qmark, ':', ' ', qmark] : List Char),
      z.toNat < 128 by decide) x h
  · rw [List.mem_flatMap] at h
    obtain ⟨c, _, hc⟩ := h
    exact mem_escapeChar_lt hc
  · exact (show ∀ z ∈ ([qmark, ',', ' ', qmark] : List Char),
      z.toNat < 128 by decide) x h
  · exact (show ∀ z ∈ "iat".toList, z.toNat < 128 by decide) x h
  · exact (show ∀ z ∈ ([qmark, ':', ' '] : List Char), z.toNat < 128 by decide) x h
  · exact mem_natRepr_lt h
  · exact (show ∀ z ∈ ([rbrace] : List Char), z.toNat < 128 by decide) x h

/-- The encoded payload part contains no dot (the alphabet is base64url
without padding). -/
theorem dot_not_mem_encPart (u : List Char) (n : Nat) :
    '.' ∉ encPart u n := by
  intro h
  rw [encPart] at h
  have h2 := mem_of_mem_rstripEq h
  rcases mem_b64urlEncode h2 with ⟨v, hv⟩ | hv
  · exact b64Char_ne_dot v hv.symm
  · exact absurd hv (by decide)

/-- Decoding a freshly generated token recovers the user id. -/
theorem decode_token_generate (secret u : List Char) (now : Nat) :
    decode_token secret (generate_token secret u now) = some u := by
  rw [generate_token, decode_token,
    splitFirstDot_append _ (dot_not_mem_encPart u now)]
  dsimp only
  rw [if_neg (fun hne => hne rfl)]
  rw [encPart, repadEq_rstripEq_encode,
    b64urlDecode_b64urlEncode (fun x hx => mem_utf8Encode_lt hx)]
  dsimp only
  rw [utf8Decode_utf8Encode_ascii (fun c hc => mem_jsonDumpsPayload_lt hc)]
  dsimp only
  rw [jsonLoads_payload]
  rfl

/-- Flipping any bit of the signature makes decoding fail. -/
theorem decode_token_flip (secret u : List Char) (now : Nat) (i b : Nat)
    (hi : i < 16) (hb : b < 8) :
    flipBitAt (tokenSign secret (encPart u now)) i b
        ≠ tokenSign secret (encPart u now)
      ∧ decode_token secret (encPart u now
          ++ '.' :: flipBitAt (tokenSign secret (encPart u now)) i b) = none := by
  have hlen := tokenSign_length secret (encPart u now)
  have hne : flipBitAt (tokenSign secret (encPart u now)) i b
      ≠ tokenSign secret (encPart u now) :=
    flipBitAt_ne (by omega) hb (fun c hc => mem_tokenSign_toNat_lt hc)
  refine ⟨hne, ?_⟩
  rw [decode_token, splitFirstDot_append _ (dot_not_mem_encPart u now)]
  dsimp only
  rw [if_pos (Ne.symm hne)]

/-- C9: token round-trip and signature tamper-detection.  For every
secret, every non-empty user id and every epoch second, decoding a
freshly generated token returns exactly the user id; and flipping any
bit (index `b < 8` of character `i < 16`) of the 16-hex-character
signature part yields a different signature string and makes
`decode_token` return `none`. -/
theorem C9_token_roundtrip :
    (∀ (secret u : List Char) (now : Nat), u ≠ [] →
        decode_token secret (generate_token secret u now) = some u)
    ∧ (∀ (secret u : List Char) (now i b : Nat), i < 16 → b < 8 →
        flipBitAt (tokenSign secret (encPart u now)) i b
            ≠ tokenSign secret (encPart u now)
          ∧ decode_token secret (encPart u now
              ++ '.' :: flipBitAt (tokenSign secret (encPart u now)) i b)
            = none) := by
  constructor
  · intro secret u now _
    exact decode_token_generate secret u now
  · intro secret u now i b hi hb
    exact decode_token_flip secret u now i b hi hb

/-- Witness for C9 at a concrete secret, user id, timestamp, and bit
position. -/
theorem C9_token_roundtrip_witness :
    decode_token ("dev-secret".toList)
        (generate_token ("dev-secret".toList) ("alice".toList) 1700000000)
      = some ("alice".toList)
    ∧ decode_token ("dev-secret".toList)
        (encPart ("alice".toList) 1700000000
          ++ '.' :: flipBitAt (tokenSign ("dev-secret".toList)
              (encPart ("alice".toList) 1700000000)) 0 0)
      = none :=
  ⟨C9_token_roundtrip.1 ("dev-secret".toList) ("alice".toList) 1700000000
      (by decide),
    (C9_token_roundtrip.2 ("dev-secret".toList) ("alice".toList) 1700000000 0 0
      (by decide) (by decide)).2⟩

end AgentTrace
